import Mathlib

/-!
Verification development for the htmlparser component of the amphtml
repository (validator/cpp/htmlparser).  The file shallowly embeds the data
model of validator/cpp/htmlparser/document.h (DocumentMetadata, Document,
CloneNode) and, since the tree-construction implementation itself
(parser.cc, node.h) is not part of the available sources, a model of the
HTML5 tree-construction pipeline built from the specification text: a
token-driven insertion-mode state machine that manufactures missing
html/head/body elements, merges duplicate html/body start tags, decides
quirks mode from the doctype, and extracts base/canonical URLs.

The model consumes the token stream produced by the tokenizer (per the
specification, characters flow through the tokenizer into the tree builder
as a stream of start-tag, end-tag, text, comment and doctype tokens), so
Parse is embedded as a function from a list of tokens (plus the byte size
of the source, which the tokenizer abstracts away) to a Document.
-/

set_option maxHeartbeats 1600000

namespace HtmlDoc

/-- Line and column position of a token or element in the source, from
token.h via document.h (the LineCol used by DocumentMetadata). -/
structure LineCol where
  line : Nat
  col : Nat
deriving DecidableEq, Repr

/-- Modelled from the spec: an attribute is a name/value pair; an element
carries an ordered-but-lookup-by-name mapping of attribute name to value. -/
structure Attribute where
  key : String
  val : String
deriving DecidableEq, Repr

/-- Modelled from the spec: node kinds are a variant over document, element,
text, comment and doctype nodes (node.h is not among the available
sources). -/
inductive NodeType where
  | errorNode
  | textNode
  | documentNode
  | elementNode
  | commentNode
  | doctypeNode
deriving DecidableEq, Repr

mutual
/-- Modelled from the spec: a tree node with its kind, its tag or text data,
its attribute mapping and its ordered children. -/
inductive Node where
  | mk (node_type : NodeType) (data : String) (attributes : List Attribute)
      (children : NodeList)
/-- The ordered children of a node (a separate inductive so that recursion
over the tree stays structural). -/
inductive NodeList where
  | nil
  | cons (head : Node) (tail : NodeList)
end

/-- Modelled from the spec: tokens are a variant over start tag, end tag,
text run, comment and doctype; start tags carry a tag name, an attribute
list and a self-closing flag, and every token carries a source position. -/
inductive Token where
  | startTag (name : String) (attributes : List Attribute) (selfClosing : Bool)
      (position : LineCol)
  | endTag (name : String) (position : LineCol)
  | textToken (body : String) (position : LineCol)
  | commentToken (body : String) (position : LineCol)
  | doctypeToken (name : String) (publicId : Option String)
      (systemId : Option String) (position : LineCol)
deriving DecidableEq, Repr

/-- The source position carried by a token. -/
def tokenPosition : Token → LineCol
  | .startTag _ _ _ p => p
  | .endTag _ p => p
  | .textToken _ p => p
  | .commentToken _ p => p
  | .doctypeToken _ _ _ p => p

/-- The attribute list carried by a start tag (empty for other tokens). -/
def tokenAttributes : Token → List Attribute
  | .startTag _ attrs _ _ => attrs
  | _ => []

/-- DocumentMetadata from document.h: flags and positions produced as side
effects of one parse operation, with the default values given by the member
initializers in the header. -/
structure DocumentMetadata where
  has_manufactured_html : Bool := false
  has_manufactured_head : Bool := false
  has_manufactured_body : Bool := false
  duplicate_html_elements : Bool := false
  duplicate_body_elements : Bool := false
  duplicate_html_element_location : Option LineCol := none
  duplicate_body_element_location : Option LineCol := none
  quirks_mode : Bool := false
  document_end_location : LineCol := ⟨0, 0⟩
  html_src_bytes : Nat := 0
  base_url : String × String := ("", "")
  canonical_url : String := ""
deriving DecidableEq, Repr

/-- Document from document.h: owner of the parsed tree, exposing the root
node (tree mode), the fragment node list (fragment mode) and the metadata
record.  Node pointers are embedded as Option Node, so a null root is
none. -/
structure Document where
  root_node : Option Node := none
  fragment_nodes : List Node := []
  html_src_bytes : Nat := 0
  metadata : DocumentMetadata := {}

/-- Document::RootNode from document.h. -/
def Document.RootNode (d : Document) : Option Node := d.root_node

/-- Document::FragmentNodes from document.h. -/
def Document.FragmentNodes (d : Document) : List Node := d.fragment_nodes

/-- Document::Metadata from document.h. -/
def Document.Metadata (d : Document) : DocumentMetadata := d.metadata

/-- A freshly constructed Document: all DocumentMetadata fields take the
default member initializers of document.h, the fragment node list is empty
and no tree has been produced yet. -/
def Document.new : Document := {}

/-- True when every character of the string is an HTML whitespace character
(space, tab, line feed, form feed, carriage return). -/
def isWhitespaceStr (s : String) : Bool :=
  s.all fun c => c == ' ' || c == '\t' || c == '\n' || c == '\r' || c == '\x0c'

/-- True when the attribute list already binds the given name. -/
def hasAttribute (attrs : List Attribute) (k : String) : Bool :=
  attrs.any fun a => a.key == k

/-- Value bound to the given attribute name, if present (first binding
wins, per the spec rule that names are unique with first occurrence
winning). -/
def getAttribute (attrs : List Attribute) (k : String) : Option String :=
  (attrs.find? fun a => a.key == k).map Attribute.val

/-- Modelled from the spec duplicate rule: fold those incoming attributes
whose names are not already present onto the existing attribute mapping
(also how an element mapping is built from a token list, making names
unique with first occurrence winning). -/
def copyAttributes (existing incoming : List Attribute) : List Attribute :=
  incoming.foldl
    (fun acc a => if hasAttribute acc a.key then acc else acc ++ [a]) existing

/-- Modelled from the spec: a fixed legacy-quirks lookup table of historical
DTD public identifiers (the table of the actual tokenizer/parser sources is
not available; a representative fixed set stands in). -/
def quirksPublicIdentifiers : List String :=
  ["-//W3C//DTD HTML 4.01 Frameset//EN",
   "-//W3C//DTD HTML 4.01 Transitional//EN",
   "-//W3C//DTD HTML 4.0 Frameset//EN",
   "-//W3C//DTD HTML 4.0 Transitional//EN",
   "HTML"]

/-- Modelled from the spec: the fixed legacy-quirks lookup table of system
identifiers. -/
def quirksSystemIdentifiers : List String :=
  ["http://www.ibm.com/data/dtd/v11/ibmxhtml1-transitional.dtd"]

/-- ASCII lowercase of one character (the case-insensitivity HTML uses). -/
def asciiToLower (c : Char) : Char :=
  if 65 ≤ c.toNat ∧ c.toNat ≤ 90 then Char.ofNat (c.toNat + 32) else c

/-- ASCII lowercase of a string, by structural recursion over its
characters. -/
def stringToLower (s : String) : String := ⟨s.data.map asciiToLower⟩

/-- Membership of an optional identifier in a lookup table (an absent
identifier never matches). -/
def optionInList (o : Option String) (l : List String) : Bool :=
  match o with
  | some s => l.contains s
  | none => false

/-- Modelled from the spec quirks decision procedure: quirks mode is
selected when the doctype name is not case-insensitively html, or when its
public or system identifier matches the fixed legacy-quirks lookup
table. -/
def quirksFromDoctype (name : String) (publicId systemId : Option String) :
    Bool :=
  decide (stringToLower name ≠ "html") ||
    optionInList publicId quirksPublicIdentifiers ||
    optionInList systemId quirksSystemIdentifiers

/-- Modelled from the spec: the elements whose start tags the in-head
insertion mode inserts into the head element. -/
def isHeadElement (n : String) : Prop :=
  n = "base" ∨ n = "link" ∨ n = "meta" ∨ n = "title" ∨ n = "style" ∨
    n = "script" ∨ n = "noscript"

instance (n : String) : Decidable (isHeadElement n) := by
  unfold isHeadElement; infer_instance

/-- The insertion modes of the modelled tree builder (the subset of the
HTML5 modes that governs root/head/body construction and the metadata
accounting of the spec). -/
inductive InsertionMode where
  | initialMode
  | beforeHtml
  | beforeHead
  | inHead
  | afterHead
  | inBody
  | afterBody
deriving DecidableEq, Repr

/-- State of the modelled tree builder during one parse: the current
insertion mode, the metadata record being accumulated, the attribute
mappings of the singleton html/head/body elements, the collected children
(in reverse order) of the document, head and body, and the accounting flags
for start tags and base elements already seen. -/
structure ParserState where
  mode : InsertionMode
  metadata : DocumentMetadata
  preRoot : List Node
  htmlAttrs : List Attribute
  headAttrs : List Attribute
  bodyAttrs : List Attribute
  headChildren : List Node
  bodyChildren : List Node
  seenHtml : Bool
  seenBody : Bool
  seenBaseHref : Bool

/-- An element node freshly created from a token: attribute names are made
unique with first occurrence winning, and the node has no children. -/
def mkElement (tag : String) (attrs : List Attribute) : Node :=
  .mk .elementNode tag (copyAttributes [] attrs) .nil

/-- A text node. -/
def mkText (s : String) : Node := .mk .textNode s [] .nil

/-- A comment node. -/
def mkComment (s : String) : Node := .mk .commentNode s [] .nil

/-- A doctype node. -/
def mkDoctype (s : String) : Node := .mk .doctypeNode s [] .nil

/-- Modelled from the spec duplicate rule for html: a second html start tag
after the first has already produced a node folds the new attributes onto
the existing node, creates no second node, and records
duplicate_html_elements with the second token position; the first html
start tag simply records its attributes and that an html start tag was
tokenized. -/
def mergeHtmlAccounting (st : ParserState) (attrs : List Attribute)
    (pos : LineCol) : ParserState :=
  { st with
    seenHtml := true,
    htmlAttrs := copyAttributes st.htmlAttrs attrs,
    metadata := { st.metadata with
      duplicate_html_elements := st.metadata.duplicate_html_elements || st.seenHtml,
      duplicate_html_element_location :=
        if st.seenHtml && st.metadata.duplicate_html_element_location.isNone
        then some pos
        else st.metadata.duplicate_html_element_location } }

/-- Modelled from the spec duplicate rule for body, analogous to html. -/
def mergeBodyAccounting (st : ParserState) (attrs : List Attribute)
    (pos : LineCol) : ParserState :=
  { st with
    seenBody := true,
    bodyAttrs := copyAttributes st.bodyAttrs attrs,
    metadata := { st.metadata with
      duplicate_body_elements := st.metadata.duplicate_body_elements || st.seenBody,
      duplicate_body_element_location :=
        if st.seenBody && st.metadata.duplicate_body_element_location.isNone
        then some pos
        else st.metadata.duplicate_body_element_location } }

/-- Modelled from the spec: the first base element carrying an href wins;
its href and optional target are recorded and later base elements never
overwrite them. -/
def recordBase (st : ParserState) (attrs : List Attribute) : ParserState :=
  match getAttribute attrs "href" with
  | some href =>
    if st.seenBaseHref then st
    else
      { st with
        seenBaseHref := true,
        metadata := { st.metadata with
          base_url := (href, (getAttribute attrs "target").getD "") } }
  | none => st

/-- Modelled from the spec: every link rel=canonical element carrying an
href overwrites canonical_url (last write wins). -/
def recordLink (st : ParserState) (attrs : List Attribute) : ParserState :=
  if getAttribute attrs "rel" = some "canonical" then
    match getAttribute attrs "href" with
    | some href =>
      { st with metadata := { st.metadata with canonical_url := href } }
    | none => st
  else st

/-- Per-token metadata accounting, performed on every processed token
before mode dispatch: the document end location follows the last processed
token, html/body start tags feed the duplicate-merging rule, and base/link
start tags feed URL extraction.  The extraction is uniform in the insertion
mode because every mode of the model routes base and link start tags to the
in-head rules (directly, or through the after-head and in-body delegation
of the HTML5 algorithm), and html/body start tags always reach the
create-or-merge rule. -/
def recordTokenMetadata (st0 : ParserState) (t : Token) : ParserState :=
  let st := { st0 with
    metadata := { st0.metadata with document_end_location := tokenPosition t } }
  match t with
  | .startTag name attrs _ pos =>
    if name = "html" then mergeHtmlAccounting st attrs pos
    else if name = "body" then mergeBodyAccounting st attrs pos
    else if name = "base" then recordBase st attrs
    else if name = "link" then recordLink st attrs
    else st
  | _ => st

/-- Marks the body element as manufactured and enters the in-body mode,
used when tree construction requires a body element before any body start
tag was tokenized. -/
def manufactureBodySt (st : ParserState) : ParserState :=
  { st with
    mode := .inBody,
    metadata := { st.metadata with has_manufactured_body := true } }

/-- Marks the head element as manufactured and enters the in-head mode. -/
def manufactureHeadSt (st : ParserState) : ParserState :=
  { st with
    mode := .inHead,
    metadata := { st.metadata with has_manufactured_head := true } }

/-- Marks the html element as manufactured and enters the before-head
mode. -/
def manufactureHtmlSt (st : ParserState) : ParserState :=
  { st with
    mode := .beforeHead,
    metadata := { st.metadata with has_manufactured_html := true } }

/-- Modelled from the spec in-body mode: text, comments and ordinary
elements become children of the body; html/body start tags were already
merged by the accounting pass and create no node; a head start tag is
ignored; body and html end tags leave the body. -/
def inBodyStep (st : ParserState) (t : Token) : ParserState :=
  match t with
  | .textToken s _ => { st with bodyChildren := mkText s :: st.bodyChildren }
  | .commentToken s _ =>
    { st with bodyChildren := mkComment s :: st.bodyChildren }
  | .doctypeToken _ _ _ _ => st
  | .startTag name attrs _ _ =>
    if name = "html" ∨ name = "body" ∨ name = "head" then st
    else { st with bodyChildren := mkElement name attrs :: st.bodyChildren }
  | .endTag name _ =>
    if name = "body" ∨ name = "html" then { st with mode := .afterBody }
    else st

/-- Modelled from the spec after-body mode: comments are appended after the
body content; any other token switches back to in-body and is reprocessed
there. -/
def afterBodyStep (st : ParserState) (t : Token) : ParserState :=
  match t with
  | .commentToken s _ =>
    { st with bodyChildren := mkComment s :: st.bodyChildren }
  | _ => inBodyStep { st with mode := .inBody } t

/-- Modelled from the spec after-head mode: a body start tag opens the
body; head-insertable elements are put back into the head; whitespace,
comments, doctypes and stray head/html tags have no structural effect;
anything else manufactures the body and is reprocessed in-body. -/
def afterHeadStep (st : ParserState) (t : Token) : ParserState :=
  match t with
  | .textToken s _ =>
    if isWhitespaceStr s then st else inBodyStep (manufactureBodySt st) t
  | .commentToken s _ =>
    { st with headChildren := mkComment s :: st.headChildren }
  | .doctypeToken _ _ _ _ => st
  | .startTag name attrs _ _ =>
    if name = "html" then st
    else if name = "body" then { st with mode := .inBody }
    else if name = "head" then st
    else if isHeadElement name then
      { st with headChildren := mkElement name attrs :: st.headChildren }
    else inBodyStep (manufactureBodySt st) t
  | .endTag name _ =>
    if name = "body" ∨ name = "html" ∨ name = "br" then
      inBodyStep (manufactureBodySt st) t
    else st

/-- Modelled from the spec in-head mode: whitespace, comments and
head-insertable elements go into the head; an html start tag was already
merged; a head start tag is ignored; a head end tag closes the head;
anything else closes the head and is reprocessed after-head. -/
def inHeadStep (st : ParserState) (t : Token) : ParserState :=
  match t with
  | .textToken s _ =>
    if isWhitespaceStr s then
      { st with headChildren := mkText s :: st.headChildren }
    else afterHeadStep { st with mode := .afterHead } t
  | .commentToken s _ =>
    { st with headChildren := mkComment s :: st.headChildren }
  | .doctypeToken _ _ _ _ => st
  | .startTag name attrs _ _ =>
    if name = "html" ∨ name = "head" then st
    else if isHeadElement name then
      { st with headChildren := mkElement name attrs :: st.headChildren }
    else afterHeadStep { st with mode := .afterHead } t
  | .endTag name _ =>
    if name = "head" then { st with mode := .afterHead }
    else if name = "body" ∨ name = "html" ∨ name = "br" then
      afterHeadStep { st with mode := .afterHead } t
    else st

/-- Modelled from the spec before-head mode: a head start tag opens the
head with its attributes; whitespace, doctypes and stray end tags are
ignored; comments are collected; anything else manufactures the head and is
reprocessed in-head. -/
def beforeHeadStep (st : ParserState) (t : Token) : ParserState :=
  match t with
  | .textToken s _ =>
    if isWhitespaceStr s then st else inHeadStep (manufactureHeadSt st) t
  | .commentToken s _ =>
    { st with headChildren := mkComment s :: st.headChildren }
  | .doctypeToken _ _ _ _ => st
  | .startTag name attrs _ _ =>
    if name = "html" then st
    else if name = "head" then
      { st with mode := .inHead, headAttrs := copyAttributes [] attrs }
    else inHeadStep (manufactureHeadSt st) t
  | .endTag name _ =>
    if name = "head" ∨ name = "body" ∨ name = "html" ∨ name = "br" then
      inHeadStep (manufactureHeadSt st) t
    else st

/-- Modelled from the spec before-html mode: an html start tag produces the
root element (its attributes were recorded by the accounting pass);
whitespace, doctypes and stray end tags are ignored; comments are appended
to the document; anything else manufactures the html element and is
reprocessed before-head. -/
def beforeHtmlStep (st : ParserState) (t : Token) : ParserState :=
  match t with
  | .doctypeToken _ _ _ _ => st
  | .commentToken s _ => { st with preRoot := mkComment s :: st.preRoot }
  | .textToken s _ =>
    if isWhitespaceStr s then st
    else beforeHeadStep (manufactureHtmlSt st) t
  | .startTag name _ _ _ =>
    if name = "html" then { st with mode := .beforeHead }
    else beforeHeadStep (manufactureHtmlSt st) t
  | .endTag name _ =>
    if name = "head" ∨ name = "body" ∨ name = "html" ∨ name = "br" then
      beforeHeadStep (manufactureHtmlSt st) t
    else st

/-- Modelled from the spec initial mode and quirks decision procedure: a
doctype token decides quirks mode once and moves to before-html; whitespace
and comments are skipped; any other token (the first non-whitespace
content) selects quirks mode and is reprocessed before-html. -/
def initialStep (st : ParserState) (t : Token) : ParserState :=
  match t with
  | .commentToken s _ => { st with preRoot := mkComment s :: st.preRoot }
  | .doctypeToken name pub sys _ =>
    { st with
      mode := .beforeHtml,
      preRoot := mkDoctype name :: st.preRoot,
      metadata := { st.metadata with
        quirks_mode := quirksFromDoctype name pub sys } }
  | .textToken s _ =>
    if isWhitespaceStr s then st
    else
      beforeHtmlStep
        { st with
          mode := .beforeHtml,
          metadata := { st.metadata with quirks_mode := true } } t
  | _ =>
    beforeHtmlStep
      { st with
        mode := .beforeHtml,
        metadata := { st.metadata with quirks_mode := true } } t

/-- Dispatch of one token to the handler of the current insertion mode. -/
def dispatchMode (st : ParserState) (t : Token) : ParserState :=
  match st.mode with
  | .initialMode => initialStep st t
  | .beforeHtml => beforeHtmlStep st t
  | .beforeHead => beforeHeadStep st t
  | .inHead => inHeadStep st t
  | .afterHead => afterHeadStep st t
  | .inBody => inBodyStep st t
  | .afterBody => afterBodyStep st t

/-- One token of tree construction: metadata accounting followed by
dispatch on the current insertion mode. -/
def processToken (st : ParserState) (t : Token) : ParserState :=
  dispatchMode (recordTokenMetadata st t) t

/-- The builder state at the start of a parse. -/
def initState : ParserState :=
  { mode := .initialMode, metadata := {}, preRoot := [], htmlAttrs := [],
    headAttrs := [], bodyAttrs := [], headChildren := [], bodyChildren := [],
    seenHtml := false, seenBody := false, seenBaseHref := false }

/-- The builder state after consuming a whole token stream. -/
def runTokens (toks : List Token) : ParserState :=
  toks.foldl processToken initState

/-- Modelled from the spec: end-of-input finalization.  Whatever elements
are still missing when the stream ends are manufactured, and the absence of
any doctype before end of input selects quirks mode. -/
def finalizeState (st : ParserState) : ParserState :=
  match st.mode with
  | .initialMode =>
    { st with metadata := { st.metadata with
        quirks_mode := true, has_manufactured_html := true,
        has_manufactured_head := true, has_manufactured_body := true } }
  | .beforeHtml =>
    { st with metadata := { st.metadata with
        has_manufactured_html := true, has_manufactured_head := true,
        has_manufactured_body := true } }
  | .beforeHead =>
    { st with metadata := { st.metadata with
        has_manufactured_head := true, has_manufactured_body := true } }
  | .inHead =>
    { st with metadata := { st.metadata with has_manufactured_body := true } }
  | .afterHead =>
    { st with metadata := { st.metadata with has_manufactured_body := true } }
  | .inBody => st
  | .afterBody => st

/-- Conversion of a children list into the node list of the tree. -/
def NodeList.ofList : List Node → NodeList
  | [] => .nil
  | n :: rest => .cons n (NodeList.ofList rest)

/-- The finished tree: a document node holding the material seen before the
root element followed by the singleton html element, which holds the
singleton head and body elements with their collected children. -/
def buildRoot (st : ParserState) : Node :=
  .mk .documentNode "" []
    (NodeList.ofList (st.preRoot.reverse ++
      [Node.mk .elementNode "html" st.htmlAttrs
        (NodeList.ofList
          [Node.mk .elementNode "head" st.headAttrs
             (NodeList.ofList st.headChildren.reverse),
           Node.mk .elementNode "body" st.bodyAttrs
             (NodeList.ofList st.bodyChildren.reverse)])]))

/-- Parse from document.h, modelled from the spec over the token stream of
the tokenizer: runs tree construction over every token, finalizes at end of
input, and returns a Document owning the finished tree and the accumulated
metadata (html_src_bytes is the byte size of the source consumed by the
tokenizer). -/
def Parse (toks : List Token) (srcBytes : Nat) : Document :=
  let st := finalizeState (runTokens toks)
  { root_node := some (buildRoot st),
    fragment_nodes := [],
    html_src_bytes := srcBytes,
    metadata := { st.metadata with html_src_bytes := srcBytes } }

mutual
/-- Number of elements with the given tag name in the subtree rooted at a
node. -/
def Node.countTag (name : String) : Node → Nat
  | .mk t d _ ch =>
    (if t = NodeType.elementNode ∧ d = name then 1 else 0) +
      NodeList.countTag name ch
/-- Number of elements with the given tag name in a list of subtrees. -/
def NodeList.countTag (name : String) : NodeList → Nat
  | .nil => 0
  | .cons n rest => Node.countTag name n + NodeList.countTag name rest
end

mutual
/-- The first element with the given tag name in the subtree rooted at a
node, in document order. -/
def Node.findFirstTag (name : String) : Node → Option Node
  | .mk t d a ch =>
    if t = NodeType.elementNode ∧ d = name then some (.mk t d a ch)
    else NodeList.findFirstTag name ch
/-- The first element with the given tag name in a list of subtrees. -/
def NodeList.findFirstTag (name : String) : NodeList → Option Node
  | .nil => none
  | .cons n rest =>
    match Node.findFirstTag name n with
    | some r => some r
    | none => NodeList.findFirstTag name rest
end

/-- The attribute mapping of a node. -/
def Node.nodeAttributes : Node → List Attribute
  | .mk _ _ a _ => a

/-- True for a start tag token with tag name html. -/
def isHtmlStartTag : Token → Bool
  | .startTag n _ _ _ => decide (n = "html")
  | _ => false

/-- True for a start tag token with tag name body. -/
def isBodyStartTag : Token → Bool
  | .startTag n _ _ _ => decide (n = "body")
  | _ => false

/-- The href of a link rel=canonical start tag, when the token is one and
carries an href. -/
def canonicalHrefOf : Token → Option String
  | .startTag name attrs _ _ =>
    if name = "link" ∧ getAttribute attrs "rel" = some "canonical" then
      getAttribute attrs "href"
    else none
  | _ => none

/-- True for a base start tag token carrying an href attribute. -/
def isBaseWithHref : Token → Bool
  | .startTag name attrs _ _ =>
    decide (name = "base") && (getAttribute attrs "href").isSome
  | _ => false

/-- The href attribute carried by a token. -/
def baseHrefOf (t : Token) : Option String :=
  getAttribute (tokenAttributes t) "href"

/-- The target attribute carried by a token, defaulting to the empty
string. -/
def baseTargetOf (t : Token) : String :=
  (getAttribute (tokenAttributes t) "target").getD ""

/-- The first base start tag with an href in a token stream. -/
def firstBase : List Token → Option Token
  | [] => none
  | t :: ts => if isBaseWithHref t then some t else firstBase ts

/-- The href of the last link rel=canonical start tag in a token stream. -/
def lastCanonicalHref : List Token → Option String
  | [] => none
  | t :: ts =>
    match lastCanonicalHref ts with
    | some h => some h
    | none => canonicalHrefOf t

/-- The html start tags of a token stream, in order. -/
def htmlStartTags (toks : List Token) : List Token :=
  toks.filter isHtmlStartTag

/-- The body start tags of a token stream, in order. -/
def bodyStartTags (toks : List Token) : List Token :=
  toks.filter isBodyStartTag

/-- The attribute mapping obtained by folding the attribute lists of a
sequence of start tags, names unique with first occurrence winning. -/
def mergedTagAttrs (tags : List Token) : List Attribute :=
  tags.foldl (fun acc t => copyAttributes acc (tokenAttributes t)) []

/-- The fields of the builder state that are maintained by the per-token
accounting pass and never touched by the insertion-mode handlers. -/
structure AccFields where
  dupHtml : Bool
  dupBody : Bool
  locHtml : Option LineCol
  locBody : Option LineCol
  baseUrl : String × String
  canonicalUrl : String
  endLoc : LineCol
  sHtml : Bool
  sBody : Bool
  sBase : Bool
  aHtml : List Attribute
  aBody : List Attribute

/-- Projection of the accounting fields out of a builder state. -/
def acc (st : ParserState) : AccFields :=
  { dupHtml := st.metadata.duplicate_html_elements,
    dupBody := st.metadata.duplicate_body_elements,
    locHtml := st.metadata.duplicate_html_element_location,
    locBody := st.metadata.duplicate_body_element_location,
    baseUrl := st.metadata.base_url,
    canonicalUrl := st.metadata.canonical_url,
    endLoc := st.metadata.document_end_location,
    sHtml := st.seenHtml,
    sBody := st.seenBody,
    sBase := st.seenBaseHref,
    aHtml := st.htmlAttrs,
    aBody := st.bodyAttrs }

/-- The specification-level effect of one token on the accounting fields:
html/body start tags merge attributes and drive the duplicate flags and
locations, the first base-with-href records the base url, canonical links
overwrite the canonical url, and the end location follows the token. -/
def accUpdate (a : AccFields) (t : Token) : AccFields :=
  { dupHtml := a.dupHtml || (a.sHtml && isHtmlStartTag t),
    dupBody := a.dupBody || (a.sBody && isBodyStartTag t),
    locHtml :=
      if isHtmlStartTag t && a.sHtml && a.locHtml.isNone then
        some (tokenPosition t)
      else a.locHtml,
    locBody :=
      if isBodyStartTag t && a.sBody && a.locBody.isNone then
        some (tokenPosition t)
      else a.locBody,
    baseUrl :=
      if isBaseWithHref t && !a.sBase then
        ((baseHrefOf t).getD "", baseTargetOf t)
      else a.baseUrl,
    canonicalUrl := (canonicalHrefOf t).getD a.canonicalUrl,
    endLoc := tokenPosition t,
    sHtml := a.sHtml || isHtmlStartTag t,
    sBody := a.sBody || isBodyStartTag t,
    sBase := a.sBase || isBaseWithHref t,
    aHtml :=
      if isHtmlStartTag t then copyAttributes a.aHtml (tokenAttributes t)
      else a.aHtml,
    aBody :=
      if isBodyStartTag t then copyAttributes a.aBody (tokenAttributes t)
      else a.aBody }

/-- True for the tokens that are significant in the initial insertion mode:
everything except comments and whitespace-only text.  The first such token
decides quirks mode (a doctype decides it from its identifiers, anything
else selects quirks). -/
def sigInitial : Token → Bool
  | .commentToken _ _ => false
  | .textToken s _ => !(isWhitespaceStr s)
  | _ => true

/-- True for the tokens that force tree construction to leave the
before-html phase, creating or manufacturing the root html element: any
start tag, non-whitespace text, or one of the head/body/html/br end
tags. -/
def forcesRoot : Token → Bool
  | .startTag _ _ _ _ => true
  | .textToken s _ => !(isWhitespaceStr s)
  | .endTag n _ => decide (n = "head" ∨ n = "body" ∨ n = "html" ∨ n = "br")
  | _ => false

/-- True for the tokens that force tree construction past the before-head
phase, creating or manufacturing the head element (an html start tag merely
merges onto the root and does not). -/
def forcesHead : Token → Bool
  | .startTag n _ _ _ => decide (n ≠ "html")
  | .textToken s _ => !(isWhitespaceStr s)
  | .endTag n _ => decide (n = "head" ∨ n = "body" ∨ n = "html" ∨ n = "br")
  | _ => false

/-- True for the tokens that force tree construction into the body phase,
creating or manufacturing the body element (html/head start tags and
head-insertable elements do not, nor does a head end tag). -/
def forcesBody : Token → Bool
  | .startTag n _ _ _ => decide (¬(n = "html" ∨ n = "head" ∨ isHeadElement n))
  | .textToken s _ => !(isWhitespaceStr s)
  | .endTag n _ => decide (n = "body" ∨ n = "html" ∨ n = "br")
  | _ => false

/-- Numeric construction phase of an insertion mode: initial, before-html,
before-head, head (in-head or after-head), body (in-body or after-body). -/
def modePhase : InsertionMode → Nat
  | .initialMode => 0
  | .beforeHtml => 1
  | .beforeHead => 2
  | .inHead => 3
  | .afterHead => 3
  | .inBody => 4
  | .afterBody => 4

/-- The construction phase a token stream leaves the builder in, decided by
which forcing tokens it contains. -/
def phaseSpec (toks : List Token) : Nat :=
  if (toks.find? forcesBody).isSome then 4
  else if (toks.find? forcesHead).isSome then 3
  else if (toks.find? forcesRoot).isSome then 2
  else if (toks.find? sigInitial).isSome then 1
  else 0

/-- The quirks flag while tokens are still being consumed: decided by the
first significant token when there is one, still false otherwise. -/
def quirksRun (toks : List Token) : Bool :=
  match toks.find? sigInitial with
  | some (Token.doctypeToken n p s _) => quirksFromDoctype n p s
  | some _ => true
  | none => false

/-- The quirks flag after end of input: as while running, except that the
absence of any significant token also selects quirks mode. -/
def quirksFinal (toks : List Token) : Bool :=
  match toks.find? sigInitial with
  | some (Token.doctypeToken n p s _) => quirksFromDoctype n p s
  | _ => true

/-- A manufactured flag while tokens are still being consumed: true exactly
when some token already forced the corresponding element to exist and the
first such forcing token was not the element's own start tag. -/
def manufacturedRun (f : Token → Bool) (name : String) (toks : List Token) :
    Bool :=
  match toks.find? f with
  | some (Token.startTag n _ _ _) => decide (n ≠ name)
  | some _ => true
  | none => false

/-- A manufactured flag after end of input: end of input forces every
element that no token forced, so the flag is true unless the first forcing
token was the element's own start tag. -/
def manufacturedFinal (f : Token → Bool) (name : String) (toks : List Token) :
    Bool :=
  match toks.find? f with
  | some (Token.startTag n _ _ _) => decide (n ≠ name)
  | some _ => true
  | none => true

/-- A subtree containing no html, head or body elements. -/
def CleanNode (n : Node) : Prop :=
  Node.countTag "html" n = 0 ∧ Node.countTag "head" n = 0 ∧
    Node.countTag "body" n = 0

/-- A list of subtrees each containing no html, head or body elements. -/
def CleanL (l : List Node) : Prop := ∀ n ∈ l, CleanNode n

/-- The fields of the builder state that the accounting pass never touches:
the insertion mode, the quirks and manufactured flags, and the collected
children lists. -/
structure ModalFields where
  mode : InsertionMode
  quirks : Bool
  mHtml : Bool
  mHead : Bool
  mBody : Bool
  preRoot : List Node
  headChildren : List Node
  bodyChildren : List Node

/-- Projection of the modal fields out of a builder state. -/
def modal (st : ParserState) : ModalFields :=
  { mode := st.mode,
    quirks := st.metadata.quirks_mode,
    mHtml := st.metadata.has_manufactured_html,
    mHead := st.metadata.has_manufactured_head,
    mBody := st.metadata.has_manufactured_body,
    preRoot := st.preRoot,
    headChildren := st.headChildren,
    bodyChildren := st.bodyChildren }

/-- The invariant tying the builder state to the prefix of tokens already
consumed: the insertion mode matches the construction phase forced by the
prefix, the quirks and manufactured flags match their specification-level
characterizations, and the collected children contain no html/head/body
elements. -/
structure Inv (pre : List Token) (st : ParserState) : Prop where
  hphase : phaseSpec pre = modePhase st.mode
  hquirks : st.metadata.quirks_mode = quirksRun pre
  hmhtml : st.metadata.has_manufactured_html =
    manufacturedRun forcesRoot "html" pre
  hmhead : st.metadata.has_manufactured_head =
    manufacturedRun forcesHead "head" pre
  hmbody : st.metadata.has_manufactured_body =
    manufacturedRun forcesBody "body" pre
  hpre : CleanL st.preRoot
  hheadc : CleanL st.headChildren
  hbodyc : CleanL st.bodyChildren

/-- Modelled from the spec and the node.h declarations used by document.h: a
node record of the arena owned by a Document, carrying its kind, tag or
text data, attribute mapping, and its non-owning tree relations (parent,
first/last child, previous/next sibling), embedded as arena indices. -/
structure NodeRec where
  node_type : NodeType
  data : String
  attributes : List Attribute
  parent : Option Nat := none
  first_child : Option Nat := none
  last_child : Option Nat := none
  prev_sibling : Option Nat := none
  next_sibling : Option Nat := none
deriving DecidableEq, Repr

/-- The node arena owned by one Document: all nodes created during one
parse, identified by their index. -/
structure NodeStore where
  nodes : List NodeRec
deriving DecidableEq, Repr

/-- Document::NewNode from document.h: creates a new node owned by this
document, with no relations and no attributes. -/
def NodeStore.NewNode (d : NodeStore) (t : NodeType) (tag : String) :
    NodeStore × Nat :=
  ({ nodes := d.nodes ++ [{ node_type := t, data := tag, attributes := [] }] },
    d.nodes.length)

/-- Document::CloneNode from document.h: returns a new node with the same
type, data and attributes; the clone has no parent, no siblings and no
children, and is owned by the same document. -/
def NodeStore.CloneNode (d : NodeStore) (i : Nat) : NodeStore × Nat :=
  match d.nodes.get? i with
  | some nd =>
    ({ nodes := d.nodes ++
        [{ node_type := nd.node_type, data := nd.data,
           attributes := nd.attributes }] },
      d.nodes.length)
  | none => (d, i)

/-- True for doctype tokens. -/
def isDoctypeTok : Token → Bool
  | .doctypeToken _ _ _ _ => true
  | _ => false

/-- Token stream in which content forces the root element to be
manufactured before an html start tag appears later in the source. -/
def exDivHtml : List Token :=
  [Token.startTag "div" [] false ⟨1, 1⟩, Token.startTag "html" [] false ⟨1, 6⟩]

/-- Token stream with two html start tags. -/
def exTwoHtml : List Token :=
  [Token.startTag "html" [⟨"a", "1"⟩] false ⟨1, 1⟩,
   Token.startTag "html" [⟨"b", "2"⟩] false ⟨2, 3⟩]

/-- Token stream with one base element carrying href and target followed by
a second base element. -/
def exBase : List Token :=
  [Token.startTag "base" [⟨"href", "u1"⟩, ⟨"target", "t1"⟩] false ⟨1, 1⟩,
   Token.startTag "base" [⟨"href", "u2"⟩] false ⟨2, 1⟩]

/-- Token stream with two link rel=canonical elements. -/
def exCanonical : List Token :=
  [Token.startTag "link" [⟨"rel", "canonical"⟩, ⟨"href", "u1"⟩] false ⟨1, 1⟩,
   Token.startTag "link" [⟨"rel", "canonical"⟩, ⟨"href", "u2"⟩] false ⟨2, 1⟩]

/-- A one-node store whose node has attributes and tree relations set. -/
def exStore : NodeStore :=
  ⟨[{ node_type := NodeType.elementNode, data := "b",
      attributes := [⟨"x", "y"⟩], parent := some 0, first_child := some 0,
      last_child := some 0, prev_sibling := some 0,
      next_sibling := some 0 }]⟩

theorem acc_inBodyStep (st : ParserState) (t : Token) :
    acc (inBodyStep st t) = acc st := by
  cases t <;> simp only [inBodyStep] <;> (try split_ifs) <;> rfl

theorem acc_afterBodyStep (st : ParserState) (t : Token) :
    acc (afterBodyStep st t) = acc st := by
  cases t <;> simp only [afterBodyStep] <;>
    first
      | rfl
      | exact (acc_inBodyStep _ _).trans rfl

theorem acc_manufactureBodySt (st : ParserState) :
    acc (manufactureBodySt st) = acc st := rfl

theorem acc_afterHeadStep (st : ParserState) (t : Token) :
    acc (afterHeadStep st t) = acc st := by
  cases t <;> simp only [afterHeadStep] <;> (try split_ifs) <;>
    first
      | rfl
      | exact (acc_inBodyStep _ _).trans rfl

theorem acc_inHeadStep (st : ParserState) (t : Token) :
    acc (inHeadStep st t) = acc st := by
  cases t <;> simp only [inHeadStep] <;> (try split_ifs) <;>
    first
      | rfl
      | exact (acc_afterHeadStep _ _).trans rfl

theorem acc_beforeHeadStep (st : ParserState) (t : Token) :
    acc (beforeHeadStep st t) = acc st := by
  cases t <;> simp only [beforeHeadStep] <;> (try split_ifs) <;>
    first
      | rfl
      | exact (acc_inHeadStep _ _).trans rfl

theorem acc_beforeHtmlStep (st : ParserState) (t : Token) :
    acc (beforeHtmlStep st t) = acc st := by
  cases t <;> simp only [beforeHtmlStep] <;> (try split_ifs) <;>
    first
      | rfl
      | exact (acc_beforeHeadStep _ _).trans rfl

theorem acc_initialStep (st : ParserState) (t : Token) :
    acc (initialStep st t) = acc st := by
  cases t <;> simp only [initialStep] <;> (try split_ifs) <;>
    first
      | rfl
      | exact (acc_beforeHtmlStep _ _).trans rfl

theorem acc_dispatchMode (st : ParserState) (t : Token) :
    acc (dispatchMode st t) = acc st := by
  unfold dispatchMode
  split
  · exact acc_initialStep _ _
  · exact acc_beforeHtmlStep _ _
  · exact acc_beforeHeadStep _ _
  · exact acc_inHeadStep _ _
  · exact acc_afterHeadStep _ _
  · exact acc_inBodyStep _ _
  · exact acc_afterBodyStep _ _

theorem acc_processToken (st : ParserState) (t : Token) :
    acc (processToken st t) = acc (recordTokenMetadata st t) :=
  acc_dispatchMode _ _

theorem acc_recordTokenMetadata (st : ParserState) (t : Token) :
    acc (recordTokenMetadata st t) = accUpdate (acc st) t := by
  cases t with
  | startTag name attrs sc pos =>
    simp only [recordTokenMetadata]
    split_ifs with h1 h2 h3 h4
    · subst h1
      simp [mergeHtmlAccounting, acc, accUpdate, isHtmlStartTag,
        isBodyStartTag, isBaseWithHref, canonicalHrefOf, tokenPosition,
        tokenAttributes]
    · subst h2
      simp [mergeBodyAccounting, acc, accUpdate, isHtmlStartTag,
        isBodyStartTag, isBaseWithHref, canonicalHrefOf, tokenPosition,
        tokenAttributes]
    · subst h3
      simp only [recordBase]
      cases hh : getAttribute attrs "href" with
      | none =>
        simp [acc, accUpdate, isHtmlStartTag, isBodyStartTag, isBaseWithHref,
          canonicalHrefOf, tokenPosition, hh]
      | some href =>
        cases hs : st.seenBaseHref <;>
          simp [acc, accUpdate, isHtmlStartTag, isBodyStartTag,
            isBaseWithHref, canonicalHrefOf, tokenPosition, tokenAttributes,
            baseHrefOf, baseTargetOf, hh, hs]
    · subst h4
      simp only [recordLink]
      split_ifs with hrel
      · cases hh : getAttribute attrs "href" with
        | none =>
          simp [acc, accUpdate, isHtmlStartTag, isBodyStartTag,
            isBaseWithHref, canonicalHrefOf, tokenPosition, hh, hrel]
        | some href =>
          simp [acc, accUpdate, isHtmlStartTag, isBodyStartTag,
            isBaseWithHref, canonicalHrefOf, tokenPosition, hh, hrel]
      · simp [acc, accUpdate, isHtmlStartTag, isBodyStartTag, isBaseWithHref,
          canonicalHrefOf, tokenPosition, hrel]
    · simp [acc, accUpdate, isHtmlStartTag, isBodyStartTag, isBaseWithHref,
        canonicalHrefOf, tokenPosition, h1, h2, h3, h4]
  | endTag name pos =>
    simp [recordTokenMetadata, acc, accUpdate, isHtmlStartTag,
      isBodyStartTag, isBaseWithHref, canonicalHrefOf, tokenPosition]
  | textToken body pos =>
    simp [recordTokenMetadata, acc, accUpdate, isHtmlStartTag,
      isBodyStartTag, isBaseWithHref, canonicalHrefOf, tokenPosition]
  | commentToken body pos =>
    simp [recordTokenMetadata, acc, accUpdate, isHtmlStartTag,
      isBodyStartTag, isBaseWithHref, canonicalHrefOf, tokenPosition]
  | doctypeToken name pub sys pos =>
    simp [recordTokenMetadata, acc, accUpdate, isHtmlStartTag,
      isBodyStartTag, isBaseWithHref, canonicalHrefOf, tokenPosition]

theorem acc_processToken_update (st : ParserState) (t : Token) :
    acc (processToken st t) = accUpdate (acc st) t :=
  (acc_processToken st t).trans (acc_recordTokenMetadata st t)

theorem acc_foldl (toks : List Token) : ∀ st : ParserState,
    acc (toks.foldl processToken st) = toks.foldl accUpdate (acc st) := by
  induction toks with
  | nil => intro st; rfl
  | cons t ts ih =>
    intro st
    simp only [List.foldl_cons]
    rw [ih, acc_processToken_update]

theorem foldAcc_sHtml (toks : List Token) : ∀ a : AccFields,
    (toks.foldl accUpdate a).sHtml = (a.sHtml || toks.any isHtmlStartTag) := by
  induction toks with
  | nil => intro a; simp
  | cons t ts ih =>
    intro a
    simp only [List.foldl_cons, List.any_cons]
    rw [ih]
    simp [accUpdate, Bool.or_assoc]

theorem foldAcc_sBody (toks : List Token) : ∀ a : AccFields,
    (toks.foldl accUpdate a).sBody = (a.sBody || toks.any isBodyStartTag) := by
  induction toks with
  | nil => intro a; simp
  | cons t ts ih =>
    intro a
    simp only [List.foldl_cons, List.any_cons]
    rw [ih]
    simp [accUpdate, Bool.or_assoc]

theorem foldAcc_dupHtml (toks : List Token) : ∀ a : AccFields,
    (toks.foldl accUpdate a).dupHtml =
      (a.dupHtml || (a.sHtml && decide (1 ≤ (toks.filter isHtmlStartTag).length))
        || decide (2 ≤ (toks.filter isHtmlStartTag).length)) := by
  induction toks with
  | nil => intro a; simp
  | cons t ts ih =>
    intro a
    simp only [List.foldl_cons]
    rw [ih]
    cases ht : isHtmlStartTag t <;>
      cases hs : a.sHtml <;>
        simp [accUpdate, ht, hs, List.filter_cons] <;>
          (intro h; exact Or.inr (by omega))

theorem foldAcc_dupBody (toks : List Token) : ∀ a : AccFields,
    (toks.foldl accUpdate a).dupBody =
      (a.dupBody || (a.sBody && decide (1 ≤ (toks.filter isBodyStartTag).length))
        || decide (2 ≤ (toks.filter isBodyStartTag).length)) := by
  induction toks with
  | nil => intro a; simp
  | cons t ts ih =>
    intro a
    simp only [List.foldl_cons]
    rw [ih]
    cases ht : isBodyStartTag t <;>
      cases hs : a.sBody <;>
        simp [accUpdate, ht, hs, List.filter_cons] <;>
          (intro h; exact Or.inr (by omega))

theorem foldAcc_locHtml (toks : List Token) : ∀ a : AccFields,
    (toks.foldl accUpdate a).locHtml =
      (if a.locHtml.isSome then a.locHtml
       else ((toks.filter isHtmlStartTag).get?
           (if a.sHtml then 0 else 1)).map tokenPosition) := by
  induction toks with
  | nil => intro a; cases h : a.locHtml <;> simp [h]
  | cons t ts ih =>
    intro a
    simp only [List.foldl_cons]
    rw [ih]
    cases ht : isHtmlStartTag t <;>
      cases hs : a.sHtml <;>
        cases hl : a.locHtml <;>
          simp [accUpdate, ht, hs, hl, List.filter_cons, List.get?_cons_zero,
            List.get?_cons_succ]

theorem foldAcc_locBody (toks : List Token) : ∀ a : AccFields,
    (toks.foldl accUpdate a).locBody =
      (if a.locBody.isSome then a.locBody
       else ((toks.filter isBodyStartTag).get?
           (if a.sBody then 0 else 1)).map tokenPosition) := by
  induction toks with
  | nil => intro a; cases h : a.locBody <;> simp [h]
  | cons t ts ih =>
    intro a
    simp only [List.foldl_cons]
    rw [ih]
    cases ht : isBodyStartTag t <;>
      cases hs : a.sBody <;>
        cases hl : a.locBody <;>
          simp [accUpdate, ht, hs, hl, List.filter_cons, List.get?_cons_zero,
            List.get?_cons_succ]

theorem foldAcc_aHtml (toks : List Token) : ∀ a : AccFields,
    (toks.foldl accUpdate a).aHtml =
      (toks.filter isHtmlStartTag).foldl
        (fun acc t => copyAttributes acc (tokenAttributes t)) a.aHtml := by
  induction toks with
  | nil => intro a; simp
  | cons t ts ih =>
    intro a
    simp only [List.foldl_cons]
    rw [ih]
    cases ht : isHtmlStartTag t <;> simp [accUpdate, ht, List.filter_cons]

theorem foldAcc_aBody (toks : List Token) : ∀ a : AccFields,
    (toks.foldl accUpdate a).aBody =
      (toks.filter isBodyStartTag).foldl
        (fun acc t => copyAttributes acc (tokenAttributes t)) a.aBody := by
  induction toks with
  | nil => intro a; simp
  | cons t ts ih =>
    intro a
    simp only [List.foldl_cons]
    rw [ih]
    cases ht : isBodyStartTag t <;> simp [accUpdate, ht, List.filter_cons]

theorem foldAcc_canonical (toks : List Token) : ∀ a : AccFields,
    (toks.foldl accUpdate a).canonicalUrl =
      (lastCanonicalHref toks).getD a.canonicalUrl := by
  induction toks with
  | nil => intro a; simp [lastCanonicalHref]
  | cons t ts ih =>
    intro a
    simp only [List.foldl_cons]
    rw [ih]
    simp only [lastCanonicalHref]
    cases hl : lastCanonicalHref ts with
    | some h => simp
    | none =>
      cases hc : canonicalHrefOf t <;> simp [accUpdate, hc]

theorem foldAcc_base (toks : List Token) : ∀ a : AccFields,
    ((toks.foldl accUpdate a).sBase = (a.sBase || (firstBase toks).isSome)) ∧
      ((toks.foldl accUpdate a).baseUrl =
        if a.sBase then a.baseUrl
        else
          match firstBase toks with
          | some t => ((baseHrefOf t).getD "", baseTargetOf t)
          | none => a.baseUrl) := by
  induction toks with
  | nil => intro a; simp [firstBase]
  | cons t ts ih =>
    intro a
    simp only [List.foldl_cons]
    obtain ⟨ih1, ih2⟩ := ih (accUpdate a t)
    refine ⟨?_, ?_⟩ <;>
      cases hb : isBaseWithHref t <;>
        cases hs : a.sBase <;>
          simp_all [accUpdate, firstBase, hb, hs, Bool.or_assoc]

theorem cleanL_nil : CleanL [] := by intro n hn; cases hn

theorem cleanL_cons {n : Node} {l : List Node} (hn : CleanNode n)
    (hl : CleanL l) : CleanL (n :: l) := by
  intro m hm
  rcases List.mem_cons.mp hm with h | h
  · subst h; exact hn
  · exact hl _ h

theorem cleanNode_mkText (s : String) : CleanNode (mkText s) := by
  refine ⟨?_, ?_, ?_⟩ <;> simp [mkText, Node.countTag, NodeList.countTag]

theorem cleanNode_mkComment (s : String) : CleanNode (mkComment s) := by
  refine ⟨?_, ?_, ?_⟩ <;> simp [mkComment, Node.countTag, NodeList.countTag]

theorem cleanNode_mkDoctype (s : String) : CleanNode (mkDoctype s) := by
  refine ⟨?_, ?_, ?_⟩ <;> simp [mkDoctype, Node.countTag, NodeList.countTag]

theorem cleanNode_mkElement {name : String} (attrs : List Attribute)
    (h1 : name ≠ "html") (h2 : name ≠ "head") (h3 : name ≠ "body") :
    CleanNode (mkElement name attrs) := by
  refine ⟨?_, ?_, ?_⟩ <;>
    simp [mkElement, Node.countTag, NodeList.countTag, h1, h2, h3]

theorem cleanNode_mkElement_headElem {name : String} (attrs : List Attribute)
    (h : isHeadElement name) : CleanNode (mkElement name attrs) := by
  rcases h with h | h | h | h | h | h | h <;> subst h <;>
    exact cleanNode_mkElement _ (by decide) (by decide) (by decide)

theorem find?_append_none {α : Type} {p : α → Bool} {pre : List α}
    (h : pre.find? p = none) (t : α) :
    (pre ++ [t]).find? p = if p t then some t else none := by
  induction pre with
  | nil =>
    simp only [List.nil_append, List.find?]
    cases hp : p t <;> simp [hp]
  | cons x xs ih =>
    rw [List.find?_cons] at h
    cases hx : p x with
    | true => simp [hx] at h
    | false =>
      simp only [hx] at h
      simp only [List.cons_append, List.find?_cons, hx]
      exact ih h

theorem find?_append_some {α : Type} {p : α → Bool} {pre : List α} {x : α}
    (h : pre.find? p = some x) (t : α) : (pre ++ [t]).find? p = some x := by
  induction pre with
  | nil => simp [List.find?] at h
  | cons y ys ih =>
    rw [List.find?_cons] at h
    cases hy : p y with
    | true =>
      simp only [hy] at h
      simp only [List.cons_append, List.find?_cons, hy]
      exact h
    | false =>
      simp only [hy] at h
      simp only [List.cons_append, List.find?_cons, hy]
      exact ih h

theorem find?_none_mono {α : Type} {p q : α → Bool}
    (hpq : ∀ x, p x = true → q x = true) {l : List α}
    (hq : l.find? q = none) : l.find? p = none := by
  induction l with
  | nil => rfl
  | cons x xs ih =>
    rw [List.find?_cons] at hq ⊢
    cases hx : q x with
    | true => simp [hx] at hq
    | false =>
      simp only [hx] at hq
      cases hp : p x with
      | true => exact absurd (hpq x hp) (by simp [hx])
      | false => exact ih hq

theorem forcesRoot_of_forcesHead (t : Token) :
    forcesHead t = true → forcesRoot t = true := by
  cases t <;> simp [forcesHead, forcesRoot]

theorem forcesHead_of_forcesBody (t : Token) :
    forcesBody t = true → forcesHead t = true := by
  cases t with
  | startTag n attrs sc pos =>
    simp only [forcesBody, forcesHead, decide_eq_true_eq]
    intro h h2
    exact h (Or.inl h2)
  | endTag n pos =>
    simp only [forcesBody, forcesHead, decide_eq_true_eq]
    tauto
  | textToken s pos => simp [forcesBody, forcesHead]
  | commentToken s pos => simp [forcesBody, forcesHead]
  | doctypeToken n p s pos => simp [forcesBody, forcesHead]

theorem sigInitial_of_forcesRoot (t : Token) :
    forcesRoot t = true → sigInitial t = true := by
  cases t <;> simp [forcesRoot, sigInitial]

theorem modal_record (st : ParserState) (t : Token) :
    modal (recordTokenMetadata st t) = modal st := by
  cases t with
  | startTag name attrs sc pos =>
    simp only [recordTokenMetadata]
    split_ifs with h1 h2 h3 h4
    · rfl
    · rfl
    · simp only [recordBase]
      cases hh : getAttribute attrs "href" with
      | none => rfl
      | some href => cases hs : st.seenBaseHref <;> simp [hs, modal]
    · simp only [recordLink]
      split_ifs with hrel
      · cases hh : getAttribute attrs "href" with
        | none => rfl
        | some href => rfl
      · rfl
    · rfl
  | endTag name pos => rfl
  | textToken body pos => rfl
  | commentToken body pos => rfl
  | doctypeToken name pub sys pos => rfl

theorem record_mode (st : ParserState) (t : Token) :
    (recordTokenMetadata st t).mode = st.mode :=
  congrArg ModalFields.mode (modal_record st t)

theorem record_quirks (st : ParserState) (t : Token) :
    (recordTokenMetadata st t).metadata.quirks_mode =
      st.metadata.quirks_mode :=
  congrArg ModalFields.quirks (modal_record st t)

theorem record_mHtml (st : ParserState) (t : Token) :
    (recordTokenMetadata st t).metadata.has_manufactured_html =
      st.metadata.has_manufactured_html :=
  congrArg ModalFields.mHtml (modal_record st t)

theorem record_mHead (st : ParserState) (t : Token) :
    (recordTokenMetadata st t).metadata.has_manufactured_head =
      st.metadata.has_manufactured_head :=
  congrArg ModalFields.mHead (modal_record st t)

theorem record_mBody (st : ParserState) (t : Token) :
    (recordTokenMetadata st t).metadata.has_manufactured_body =
      st.metadata.has_manufactured_body :=
  congrArg ModalFields.mBody (modal_record st t)

theorem record_preRoot (st : ParserState) (t : Token) :
    (recordTokenMetadata st t).preRoot = st.preRoot :=
  congrArg ModalFields.preRoot (modal_record st t)

theorem record_headChildren (st : ParserState) (t : Token) :
    (recordTokenMetadata st t).headChildren = st.headChildren :=
  congrArg ModalFields.headChildren (modal_record st t)

theorem record_bodyChildren (st : ParserState) (t : Token) :
    (recordTokenMetadata st t).bodyChildren = st.bodyChildren :=
  congrArg ModalFields.bodyChildren (modal_record st t)

theorem find?_isSome_mono {alpha : Type} {p q : alpha → Bool}
    (hpq : ∀ x, p x = true → q x = true) {l : List alpha}
    (h : (l.find? p).isSome = true) : (l.find? q).isSome = true := by
  cases hq : l.find? q with
  | some x => rfl
  | none =>
    rw [find?_none_mono hpq hq] at h
    simp at h

theorem find?_append_isSome {alpha : Type} (p : alpha → Bool)
    (pre : List alpha) (t : alpha) :
    ((pre ++ [t]).find? p).isSome = ((pre.find? p).isSome || p t) := by
  cases h : pre.find? p with
  | some x => simp [find?_append_some h t]
  | none =>
    rw [find?_append_none h t]
    cases hp : p t <;> simp [hp]

theorem phaseSpec_append (pre : List Token) (t : Token) :
    phaseSpec (pre ++ [t]) =
      (if ((pre.find? forcesBody).isSome || forcesBody t) then 4
       else if ((pre.find? forcesHead).isSome || forcesHead t) then 3
       else if ((pre.find? forcesRoot).isSome || forcesRoot t) then 2
       else if ((pre.find? sigInitial).isSome || sigInitial t) then 1
       else 0) := by
  unfold phaseSpec
  rw [find?_append_isSome, find?_append_isSome, find?_append_isSome,
    find?_append_isSome]

theorem phaseSpec_eq_zero {pre : List Token} (h : phaseSpec pre = 0) :
    pre.find? sigInitial = none ∧ pre.find? forcesRoot = none ∧
      pre.find? forcesHead = none ∧ pre.find? forcesBody = none := by
  unfold phaseSpec at h
  split_ifs at h with hb hh hr hs <;> try omega
  rw [Option.not_isSome_iff_eq_none] at hb hh hr hs
  exact ⟨hs, hr, hh, hb⟩

theorem phaseSpec_eq_one {pre : List Token} (h : phaseSpec pre = 1) :
    (pre.find? sigInitial).isSome = true ∧ pre.find? forcesRoot = none ∧
      pre.find? forcesHead = none ∧ pre.find? forcesBody = none := by
  unfold phaseSpec at h
  split_ifs at h with hb hh hr hs <;> try omega
  rw [Option.not_isSome_iff_eq_none] at hb hh hr
  exact ⟨hs, hr, hh, hb⟩

theorem phaseSpec_eq_two {pre : List Token} (h : phaseSpec pre = 2) :
    (pre.find? sigInitial).isSome = true ∧
      (pre.find? forcesRoot).isSome = true ∧
      pre.find? forcesHead = none ∧ pre.find? forcesBody = none := by
  unfold phaseSpec at h
  split_ifs at h with hb hh hr <;> try omega
  rw [Option.not_isSome_iff_eq_none] at hb hh
  exact ⟨find?_isSome_mono sigInitial_of_forcesRoot hr, hr, hh, hb⟩

theorem phaseSpec_eq_three {pre : List Token} (h : phaseSpec pre = 3) :
    (pre.find? sigInitial).isSome = true ∧
      (pre.find? forcesRoot).isSome = true ∧
      (pre.find? forcesHead).isSome = true ∧
      pre.find? forcesBody = none := by
  unfold phaseSpec at h
  split_ifs at h with hb hh <;> try omega
  rw [Option.not_isSome_iff_eq_none] at hb
  have hr := find?_isSome_mono forcesRoot_of_forcesHead hh
  exact ⟨find?_isSome_mono sigInitial_of_forcesRoot hr, hr, hh, hb⟩

theorem phaseSpec_eq_four {pre : List Token} (h : phaseSpec pre = 4) :
    (pre.find? sigInitial).isSome = true ∧
      (pre.find? forcesRoot).isSome = true ∧
      (pre.find? forcesHead).isSome = true ∧
      (pre.find? forcesBody).isSome = true := by
  unfold phaseSpec at h
  split_ifs at h with hb <;> try omega
  have hh := find?_isSome_mono forcesHead_of_forcesBody hb
  have hr := find?_isSome_mono forcesRoot_of_forcesHead hh
  exact ⟨find?_isSome_mono sigInitial_of_forcesRoot hr, hr, hh, hb⟩

theorem quirksRun_append_isSome {pre : List Token}
    (h : (pre.find? sigInitial).isSome = true) (t : Token) :
    quirksRun (pre ++ [t]) = quirksRun pre := by
  obtain ⟨x, hx⟩ := Option.isSome_iff_exists.mp h
  simp [quirksRun, find?_append_some hx t, hx]

theorem manufacturedRun_append_isSome {f : Token → Bool} {name : String}
    {pre : List Token} (h : (pre.find? f).isSome = true) (t : Token) :
    manufacturedRun f name (pre ++ [t]) = manufacturedRun f name pre := by
  obtain ⟨x, hx⟩ := Option.isSome_iff_exists.mp h
  simp [manufacturedRun, find?_append_some hx t, hx]

theorem manufacturedRun_append_none {f : Token → Bool} {name : String}
    {pre : List Token} (h : pre.find? f = none) (t : Token) :
    manufacturedRun f name (pre ++ [t]) =
      (if f t then
        (match t with
         | Token.startTag n _ _ _ => decide (n ≠ name)
         | _ => true)
       else false) := by
  rw [manufacturedRun, find?_append_none h t]
  cases hf : f t with
  | true => cases t <;> simp
  | false => simp

theorem manufacturedRun_none {f : Token → Bool} {name : String}
    {pre : List Token} (h : pre.find? f = none) :
    manufacturedRun f name pre = false := by
  simp [manufacturedRun, h]

theorem quirksRun_none {pre : List Token}
    (h : pre.find? sigInitial = none) : quirksRun pre = false := by
  simp [quirksRun, h]

theorem quirksRun_append_none {pre : List Token}
    (h : pre.find? sigInitial = none) (t : Token) :
    quirksRun (pre ++ [t]) =
      (if sigInitial t then
        (match t with
         | Token.doctypeToken n p s _ => quirksFromDoctype n p s
         | _ => true)
       else false) := by
  rw [quirksRun, find?_append_none h t]
  cases hs : sigInitial t with
  | true => cases t <;> simp
  | false => simp

theorem inv_init : Inv [] initState := by
  refine ⟨?_, ?_, ?_, ?_, ?_, cleanL_nil, cleanL_nil, cleanL_nil⟩ <;> rfl

theorem phase_step (pre : List Token) (st : ParserState) (t : Token)
    (hph : phaseSpec pre = modePhase st.mode) :
    phaseSpec (pre ++ [t]) = modePhase (processToken st t).mode := by
  obtain ⟨st', hst', hm'⟩ :
      ∃ st', recordTokenMetadata st t = st' ∧ st'.mode = st.mode :=
    ⟨_, rfl, record_mode st t⟩
  have hpt : processToken st t = dispatchMode st' t := by
    simp only [processToken, hst']
  rw [hpt]
  cases hm : st.mode
  case initialMode =>
    rw [hm] at hph
    simp only [modePhase] at hph
    obtain ⟨hs, hr, hh, hb⟩ := phaseSpec_eq_zero hph
    have hs1 : (pre.find? sigInitial).isSome = false := by rw [hs]; rfl
    have hr1 : (pre.find? forcesRoot).isSome = false := by rw [hr]; rfl
    have hh1 : (pre.find? forcesHead).isSome = false := by rw [hh]; rfl
    have hb1 : (pre.find? forcesBody).isSome = false := by rw [hb]; rfl
    have hd : dispatchMode st' t = initialStep st' t := by
      unfold dispatchMode; rw [hm', hm]
    rw [hd]
    clear hst' hpt hd
    cases t <;>
      simp only [initialStep, beforeHtmlStep, beforeHeadStep, inHeadStep,
        afterHeadStep, inBodyStep, manufactureHtmlSt, manufactureHeadSt,
        manufactureBodySt] <;>
      (try split_ifs) <;>
      (rw [phaseSpec_append]; simp only [hb1, hh1, hr1, hs1];
       simp [*, forcesBody, forcesHead, forcesRoot, sigInitial, modePhase]) <;>
      (try tauto)
  case beforeHtml =>
    rw [hm] at hph
    simp only [modePhase] at hph
    obtain ⟨hs, hr, hh, hb⟩ := phaseSpec_eq_one hph
    have hr1 : (pre.find? forcesRoot).isSome = false := by rw [hr]; rfl
    have hh1 : (pre.find? forcesHead).isSome = false := by rw [hh]; rfl
    have hb1 : (pre.find? forcesBody).isSome = false := by rw [hb]; rfl
    have hd : dispatchMode st' t = beforeHtmlStep st' t := by
      unfold dispatchMode; rw [hm', hm]
    rw [hd]
    clear hst' hpt hd
    cases t <;>
      simp only [beforeHtmlStep, beforeHeadStep, inHeadStep, afterHeadStep,
        inBodyStep, manufactureHtmlSt, manufactureHeadSt,
        manufactureBodySt] <;>
      (try split_ifs) <;>
      (rw [phaseSpec_append]; simp only [hb1, hh1, hr1, hs];
       simp [*, forcesBody, forcesHead, forcesRoot, sigInitial, modePhase]) <;>
      (try tauto)
  case beforeHead =>
    rw [hm] at hph
    simp only [modePhase] at hph
    obtain ⟨hs, hr, hh, hb⟩ := phaseSpec_eq_two hph
    have hh1 : (pre.find? forcesHead).isSome = false := by rw [hh]; rfl
    have hb1 : (pre.find? forcesBody).isSome = false := by rw [hb]; rfl
    have hd : dispatchMode st' t = beforeHeadStep st' t := by
      unfold dispatchMode; rw [hm', hm]
    rw [hd]
    clear hst' hpt hd
    cases t <;>
      simp only [beforeHeadStep, inHeadStep, afterHeadStep, inBodyStep,
        manufactureHeadSt, manufactureBodySt] <;>
      (try split_ifs) <;>
      (rw [phaseSpec_append]; simp only [hb1, hh1, hr, hs];
       simp [*, forcesBody, forcesHead, forcesRoot, sigInitial, modePhase]) <;>
      (try tauto)
  case inHead =>
    rw [hm] at hph
    simp only [modePhase] at hph
    obtain ⟨hs, hr, hh, hb⟩ := phaseSpec_eq_three hph
    have hb1 : (pre.find? forcesBody).isSome = false := by rw [hb]; rfl
    have hd : dispatchMode st' t = inHeadStep st' t := by
      unfold dispatchMode; rw [hm', hm]
    rw [hd]
    clear hst' hpt hd
    cases t <;>
      simp only [inHeadStep, afterHeadStep, inBodyStep,
        manufactureBodySt] <;>
      (try split_ifs) <;>
      (rw [phaseSpec_append]; simp only [hb1, hh, hr, hs];
       simp [*, forcesBody, forcesHead, forcesRoot, sigInitial, modePhase]) <;>
      (try tauto)
  case afterHead =>
    rw [hm] at hph
    simp only [modePhase] at hph
    obtain ⟨hs, hr, hh, hb⟩ := phaseSpec_eq_three hph
    have hb1 : (pre.find? forcesBody).isSome = false := by rw [hb]; rfl
    have hd : dispatchMode st' t = afterHeadStep st' t := by
      unfold dispatchMode; rw [hm', hm]
    rw [hd]
    clear hst' hpt hd
    cases t <;>
      simp only [afterHeadStep, inBodyStep, manufactureBodySt] <;>
      (try split_ifs) <;>
      (rw [phaseSpec_append]; simp only [hb1, hh, hr, hs];
       simp [*, forcesBody, forcesHead, forcesRoot, sigInitial, modePhase]) <;>
      (try tauto)
  case inBody =>
    rw [hm] at hph
    simp only [modePhase] at hph
    obtain ⟨hs, hr, hh, hb⟩ := phaseSpec_eq_four hph
    have hd : dispatchMode st' t = inBodyStep st' t := by
      unfold dispatchMode; rw [hm', hm]
    rw [hd]
    clear hst' hpt hd
    cases t <;>
      simp only [inBodyStep] <;>
      (try split_ifs) <;>
      (rw [phaseSpec_append]; simp only [hb, hh, hr, hs];
       simp [*, modePhase]) <;>
      (try tauto)
  case afterBody =>
    rw [hm] at hph
    simp only [modePhase] at hph
    obtain ⟨hs, hr, hh, hb⟩ := phaseSpec_eq_four hph
    have hd : dispatchMode st' t = afterBodyStep st' t := by
      unfold dispatchMode; rw [hm', hm]
    rw [hd]
    clear hst' hpt hd
    cases t <;>
      simp only [afterBodyStep, inBodyStep] <;>
      (try split_ifs) <;>
      (rw [phaseSpec_append]; simp only [hb, hh, hr, hs];
       simp [*, modePhase]) <;>
      (try tauto)

theorem quirks_step (pre : List Token) (st : ParserState) (t : Token)
    (hph : phaseSpec pre = modePhase st.mode)
    (hq : st.metadata.quirks_mode = quirksRun pre) :
    (processToken st t).metadata.quirks_mode = quirksRun (pre ++ [t]) := by
  obtain ⟨st', hst', hm', hq'⟩ :
      ∃ st', recordTokenMetadata st t = st' ∧ st'.mode = st.mode ∧
        st'.metadata.quirks_mode = st.metadata.quirks_mode :=
    ⟨_, rfl, record_mode st t, record_quirks st t⟩
  have hpt : processToken st t = dispatchMode st' t := by
    simp only [processToken, hst']
  rw [hpt]
  cases hm : st.mode
  case initialMode =>
    rw [hm] at hph
    simp only [modePhase] at hph
    obtain ⟨hs, hr, hh, hb⟩ := phaseSpec_eq_zero hph
    have hq0 : st.metadata.quirks_mode = false := hq.trans (quirksRun_none hs)
    have hd : dispatchMode st' t = initialStep st' t := by
      unfold dispatchMode; rw [hm', hm]
    rw [hd, quirksRun_append_none hs t]
    clear hst' hpt hd
    cases t <;>
      simp only [initialStep, beforeHtmlStep, beforeHeadStep, inHeadStep,
        afterHeadStep, inBodyStep, manufactureHtmlSt, manufactureHeadSt,
        manufactureBodySt] <;>
      (try split_ifs) <;> (try simp [*, sigInitial]) <;>
      (try simp_all [sigInitial]) <;> (try tauto)
  case beforeHtml =>
    rw [hm] at hph
    simp only [modePhase] at hph
    obtain ⟨hs, hr, hh, hb⟩ := phaseSpec_eq_one hph
    have hd : dispatchMode st' t = beforeHtmlStep st' t := by
      unfold dispatchMode; rw [hm', hm]
    rw [hd, quirksRun_append_isSome hs t, ← hq]
    clear hst' hpt hd
    cases t <;>
      simp only [beforeHtmlStep, beforeHeadStep, inHeadStep, afterHeadStep,
        inBodyStep, manufactureHtmlSt, manufactureHeadSt,
        manufactureBodySt] <;>
      (try split_ifs) <;> simp [*] <;> (try tauto)
  case beforeHead =>
    rw [hm] at hph
    simp only [modePhase] at hph
    obtain ⟨hs, hr, hh, hb⟩ := phaseSpec_eq_two hph
    have hd : dispatchMode st' t = beforeHeadStep st' t := by
      unfold dispatchMode; rw [hm', hm]
    rw [hd, quirksRun_append_isSome hs t, ← hq]
    clear hst' hpt hd
    cases t <;>
      simp only [beforeHeadStep, inHeadStep, afterHeadStep, inBodyStep,
        manufactureHeadSt, manufactureBodySt] <;>
      (try split_ifs) <;> simp [*] <;> (try tauto)
  case inHead =>
    rw [hm] at hph
    simp only [modePhase] at hph
    obtain ⟨hs, hr, hh, hb⟩ := phaseSpec_eq_three hph
    have hd : dispatchMode st' t = inHeadStep st' t := by
      unfold dispatchMode; rw [hm', hm]
    rw [hd, quirksRun_append_isSome hs t, ← hq]
    clear hst' hpt hd
    cases t <;>
      simp only [inHeadStep, afterHeadStep, inBodyStep,
        manufactureBodySt] <;>
      (try split_ifs) <;> simp [*] <;> (try tauto)
  case afterHead =>
    rw [hm] at hph
    simp only [modePhase] at hph
    obtain ⟨hs, hr, hh, hb⟩ := phaseSpec_eq_three hph
    have hd : dispatchMode st' t = afterHeadStep st' t := by
      unfold dispatchMode; rw [hm', hm]
    rw [hd, quirksRun_append_isSome hs t, ← hq]
    clear hst' hpt hd
    cases t <;>
      simp only [afterHeadStep, inBodyStep, manufactureBodySt] <;>
      (try split_ifs) <;> simp [*] <;> (try tauto)
  case inBody =>
    rw [hm] at hph
    simp only [modePhase] at hph
    obtain ⟨hs, hr, hh, hb⟩ := phaseSpec_eq_four hph
    have hd : dispatchMode st' t = inBodyStep st' t := by
      unfold dispatchMode; rw [hm', hm]
    rw [hd, quirksRun_append_isSome hs t, ← hq]
    clear hst' hpt hd
    cases t <;>
      simp only [inBodyStep] <;>
      (try split_ifs) <;> simp [*] <;> (try tauto)
  case afterBody =>
    rw [hm] at hph
    simp only [modePhase] at hph
    obtain ⟨hs, hr, hh, hb⟩ := phaseSpec_eq_four hph
    have hd : dispatchMode st' t = afterBodyStep st' t := by
      unfold dispatchMode; rw [hm', hm]
    rw [hd, quirksRun_append_isSome hs t, ← hq]
    clear hst' hpt hd
    cases t <;>
      simp only [afterBodyStep, inBodyStep] <;>
      (try split_ifs) <;> simp [*] <;> (try tauto)

theorem mHtml_step (pre : List Token) (st : ParserState) (t : Token)
    (hph : phaseSpec pre = modePhase st.mode)
    (hf : st.metadata.has_manufactured_html = manufacturedRun forcesRoot "html" pre) :
    (processToken st t).metadata.has_manufactured_html =
      manufacturedRun forcesRoot "html" (pre ++ [t]) := by
  obtain ⟨st', hst', hm', hf'⟩ :
      ∃ st', recordTokenMetadata st t = st' ∧ st'.mode = st.mode ∧
        st'.metadata.has_manufactured_html = st.metadata.has_manufactured_html :=
    ⟨_, rfl, record_mode st t, record_mHtml st t⟩
  have hpt : processToken st t = dispatchMode st' t := by
    simp only [processToken, hst']
  rw [hpt]
  cases hm : st.mode
  case initialMode =>
    rw [hm] at hph
    simp only [modePhase] at hph
    obtain ⟨hs, hr, hh, hb⟩ := phaseSpec_eq_zero hph
    have hd : dispatchMode st' t = initialStep st' t := by
      unfold dispatchMode; rw [hm', hm]
    have h0 : st.metadata.has_manufactured_html = false :=
      hf.trans (manufacturedRun_none hr)
    rw [hd, manufacturedRun_append_none hr t]
    clear hst' hpt hd
    cases t <;>
      simp only [initialStep, beforeHtmlStep, beforeHeadStep, inHeadStep,
        afterHeadStep, inBodyStep, manufactureHtmlSt, manufactureHeadSt,
        manufactureBodySt] <;>
      (try split_ifs) <;> (try simp [*, forcesRoot]) <;>
      (try simp_all [forcesRoot]) <;> (try tauto)
  case beforeHtml =>
    rw [hm] at hph
    simp only [modePhase] at hph
    obtain ⟨hs, hr, hh, hb⟩ := phaseSpec_eq_one hph
    have hd : dispatchMode st' t = beforeHtmlStep st' t := by
      unfold dispatchMode; rw [hm', hm]
    have h0 : st.metadata.has_manufactured_html = false :=
      hf.trans (manufacturedRun_none hr)
    rw [hd, manufacturedRun_append_none hr t]
    clear hst' hpt hd
    cases t <;>
      simp only [beforeHtmlStep, beforeHeadStep, inHeadStep, afterHeadStep,
        inBodyStep, manufactureHtmlSt, manufactureHeadSt, manufactureBodySt] <;>
      (try split_ifs) <;> (try simp [*, forcesRoot]) <;>
      (try simp_all [forcesRoot]) <;> (try tauto)
  case beforeHead =>
    rw [hm] at hph
    simp only [modePhase] at hph
    obtain ⟨hs, hr, hh, hb⟩ := phaseSpec_eq_two hph
    have hd : dispatchMode st' t = beforeHeadStep st' t := by
      unfold dispatchMode; rw [hm', hm]
    rw [hd, manufacturedRun_append_isSome hr t, ← hf]
    clear hst' hpt hd
    cases t <;>
      simp only [beforeHeadStep, inHeadStep, afterHeadStep, inBodyStep,
        manufactureHeadSt, manufactureBodySt] <;>
      (try split_ifs) <;> (try simp [*]) <;>
      (try simp_all) <;> (try tauto)
  case inHead =>
    rw [hm] at hph
    simp only [modePhase] at hph
    obtain ⟨hs, hr, hh, hb⟩ := phaseSpec_eq_three hph
    have hd : dispatchMode st' t = inHeadStep st' t := by
      unfold dispatchMode; rw [hm', hm]
    rw [hd, manufacturedRun_append_isSome hr t, ← hf]
    clear hst' hpt hd
    cases t <;>
      simp only [inHeadStep, afterHeadStep, inBodyStep, manufactureBodySt] <;>
      (try split_ifs) <;> (try simp [*]) <;>
      (try simp_all) <;> (try tauto)
  case afterHead =>
    rw [hm] at hph
    simp only [modePhase] at hph
    obtain ⟨hs, hr, hh, hb⟩ := phaseSpec_eq_three hph
    have hd : dispatchMode st' t = afterHeadStep st' t := by
      unfold dispatchMode; rw [hm', hm]
    rw [hd, manufacturedRun_append_isSome hr t, ← hf]
    clear hst' hpt hd
    cases t <;>
      simp only [afterHeadStep, inBodyStep, manufactureBodySt] <;>
      (try split_ifs) <;> (try simp [*]) <;>
      (try simp_all) <;> (try tauto)
  case inBody =>
    rw [hm] at hph
    simp only [modePhase] at hph
    obtain ⟨hs, hr, hh, hb⟩ := phaseSpec_eq_four hph
    have hd : dispatchMode st' t = inBodyStep st' t := by
      unfold dispatchMode; rw [hm', hm]
    rw [hd, manufacturedRun_append_isSome hr t, ← hf]
    clear hst' hpt hd
    cases t <;>
      simp only [inBodyStep] <;>
      (try split_ifs) <;> (try simp [*]) <;>
      (try simp_all) <;> (try tauto)
  case afterBody =>
    rw [hm] at hph
    simp only [modePhase] at hph
    obtain ⟨hs, hr, hh, hb⟩ := phaseSpec_eq_four hph
    have hd : dispatchMode st' t = afterBodyStep st' t := by
      unfold dispatchMode; rw [hm', hm]
    rw [hd, manufacturedRun_append_isSome hr t, ← hf]
    clear hst' hpt hd
    cases t <;>
      simp only [afterBodyStep, inBodyStep] <;>
      (try split_ifs) <;> (try simp [*]) <;>
      (try simp_all) <;> (try tauto)

theorem mHead_step (pre : List Token) (st : ParserState) (t : Token)
    (hph : phaseSpec pre = modePhase st.mode)
    (hf : st.metadata.has_manufactured_head = manufacturedRun forcesHead "head" pre) :
    (processToken st t).metadata.has_manufactured_head =
      manufacturedRun forcesHead "head" (pre ++ [t]) := by
  obtain ⟨st', hst', hm', hf'⟩ :
      ∃ st', recordTokenMetadata st t = st' ∧ st'.mode = st.mode ∧
        st'.metadata.has_manufactured_head = st.metadata.has_manufactured_head :=
    ⟨_, rfl, record_mode st t, record_mHead st t⟩
  have hpt : processToken st t = dispatchMode st' t := by
    simp only [processToken, hst']
  rw [hpt]
  cases hm : st.mode
  case initialMode =>
    rw [hm] at hph
    simp only [modePhase] at hph
    obtain ⟨hs, hr, hh, hb⟩ := phaseSpec_eq_zero hph
    have hd : dispatchMode st' t = initialStep st' t := by
      unfold dispatchMode; rw [hm', hm]
    have h0 : st.metadata.has_manufactured_head = false :=
      hf.trans (manufacturedRun_none hh)
    rw [hd, manufacturedRun_append_none hh t]
    clear hst' hpt hd
    cases t <;>
      simp only [initialStep, beforeHtmlStep, beforeHeadStep, inHeadStep,
        afterHeadStep, inBodyStep, manufactureHtmlSt, manufactureHeadSt,
        manufactureBodySt] <;>
      (try split_ifs) <;> (try simp [*, forcesHead]) <;>
      (try simp_all [forcesHead]) <;> (try tauto)
  case beforeHtml =>
    rw [hm] at hph
    simp only [modePhase] at hph
    obtain ⟨hs, hr, hh, hb⟩ := phaseSpec_eq_one hph
    have hd : dispatchMode st' t = beforeHtmlStep st' t := by
      unfold dispatchMode; rw [hm', hm]
    have h0 : st.metadata.has_manufactured_head = false :=
      hf.trans (manufacturedRun_none hh)
    rw [hd, manufacturedRun_append_none hh t]
    clear hst' hpt hd
    cases t <;>
      simp only [beforeHtmlStep, beforeHeadStep, inHeadStep, afterHeadStep,
        inBodyStep, manufactureHtmlSt, manufactureHeadSt, manufactureBodySt] <;>
      (try split_ifs) <;> (try simp [*, forcesHead]) <;>
      (try simp_all [forcesHead]) <;> (try tauto)
  case beforeHead =>
    rw [hm] at hph
    simp only [modePhase] at hph
    obtain ⟨hs, hr, hh, hb⟩ := phaseSpec_eq_two hph
    have hd : dispatchMode st' t = beforeHeadStep st' t := by
      unfold dispatchMode; rw [hm', hm]
    have h0 : st.metadata.has_manufactured_head = false :=
      hf.trans (manufacturedRun_none hh)
    rw [hd, manufacturedRun_append_none hh t]
    clear hst' hpt hd
    cases t <;>
      simp only [beforeHeadStep, inHeadStep, afterHeadStep, inBodyStep,
        manufactureHeadSt, manufactureBodySt] <;>
      (try split_ifs) <;> (try simp [*, forcesHead]) <;>
      (try simp_all [forcesHead]) <;> (try tauto)
  case inHead =>
    rw [hm] at hph
    simp only [modePhase] at hph
    obtain ⟨hs, hr, hh, hb⟩ := phaseSpec_eq_three hph
    have hd : dispatchMode st' t = inHeadStep st' t := by
      unfold dispatchMode; rw [hm', hm]
    rw [hd, manufacturedRun_append_isSome hh t, ← hf]
    clear hst' hpt hd
    cases t <;>
      simp only [inHeadStep, afterHeadStep, inBodyStep, manufactureBodySt] <;>
      (try split_ifs) <;> (try simp [*]) <;>
      (try simp_all) <;> (try tauto)
  case afterHead =>
    rw [hm] at hph
    simp only [modePhase] at hph
    obtain ⟨hs, hr, hh, hb⟩ := phaseSpec_eq_three hph
    have hd : dispatchMode st' t = afterHeadStep st' t := by
      unfold dispatchMode; rw [hm', hm]
    rw [hd, manufacturedRun_append_isSome hh t, ← hf]
    clear hst' hpt hd
    cases t <;>
      simp only [afterHeadStep, inBodyStep, manufactureBodySt] <;>
      (try split_ifs) <;> (try simp [*]) <;>
      (try simp_all) <;> (try tauto)
  case inBody =>
    rw [hm] at hph
    simp only [modePhase] at hph
    obtain ⟨hs, hr, hh, hb⟩ := phaseSpec_eq_four hph
    have hd : dispatchMode st' t = inBodyStep st' t := by
      unfold dispatchMode; rw [hm', hm]
    rw [hd, manufacturedRun_append_isSome hh t, ← hf]
    clear hst' hpt hd
    cases t <;>
      simp only [inBodyStep] <;>
      (try split_ifs) <;> (try simp [*]) <;>
      (try simp_all) <;> (try tauto)
  case afterBody =>
    rw [hm] at hph
    simp only [modePhase] at hph
    obtain ⟨hs, hr, hh, hb⟩ := phaseSpec_eq_four hph
    have hd : dispatchMode st' t = afterBodyStep st' t := by
      unfold dispatchMode; rw [hm', hm]
    rw [hd, manufacturedRun_append_isSome hh t, ← hf]
    clear hst' hpt hd
    cases t <;>
      simp only [afterBodyStep, inBodyStep] <;>
      (try split_ifs) <;> (try simp [*]) <;>
      (try simp_all) <;> (try tauto)

theorem mBody_step (pre : List Token) (st : ParserState) (t : Token)
    (hph : phaseSpec pre = modePhase st.mode)
    (hf : st.metadata.has_manufactured_body = manufacturedRun forcesBody "body" pre) :
    (processToken st t).metadata.has_manufactured_body =
      manufacturedRun forcesBody "body" (pre ++ [t]) := by
  obtain ⟨st', hst', hm', hf'⟩ :
      ∃ st', recordTokenMetadata st t = st' ∧ st'.mode = st.mode ∧
        st'.metadata.has_manufactured_body = st.metadata.has_manufactured_body :=
    ⟨_, rfl, record_mode st t, record_mBody st t⟩
  have hpt : processToken st t = dispatchMode st' t := by
    simp only [processToken, hst']
  rw [hpt]
  cases hm : st.mode
  case initialMode =>
    rw [hm] at hph
    simp only [modePhase] at hph
    obtain ⟨hs, hr, hh, hb⟩ := phaseSpec_eq_zero hph
    have hd : dispatchMode st' t = initialStep st' t := by
      unfold dispatchMode; rw [hm', hm]
    have h0 : st.metadata.has_manufactured_body = false :=
      hf.trans (manufacturedRun_none hb)
    rw [hd, manufacturedRun_append_none hb t]
    clear hst' hpt hd
    cases t <;>
      simp only [initialStep, beforeHtmlStep, beforeHeadStep, inHeadStep,
        afterHeadStep, inBodyStep, manufactureHtmlSt, manufactureHeadSt,
        manufactureBodySt] <;>
      (try split_ifs) <;> (try simp [*, forcesBody, isHeadElement]) <;>
      (try simp_all [forcesBody, isHeadElement]) <;> (try tauto)
  case beforeHtml =>
    rw [hm] at hph
    simp only [modePhase] at hph
    obtain ⟨hs, hr, hh, hb⟩ := phaseSpec_eq_one hph
    have hd : dispatchMode st' t = beforeHtmlStep st' t := by
      unfold dispatchMode; rw [hm', hm]
    have h0 : st.metadata.has_manufactured_body = false :=
      hf.trans (manufacturedRun_none hb)
    rw [hd, manufacturedRun_append_none hb t]
    clear hst' hpt hd
    cases t <;>
      simp only [beforeHtmlStep, beforeHeadStep, inHeadStep, afterHeadStep,
        inBodyStep, manufactureHtmlSt, manufactureHeadSt, manufactureBodySt] <;>
      (try split_ifs) <;> (try simp [*, forcesBody, isHeadElement]) <;>
      (try simp_all [forcesBody, isHeadElement]) <;> (try tauto)
  case beforeHead =>
    rw [hm] at hph
    simp only [modePhase] at hph
    obtain ⟨hs, hr, hh, hb⟩ := phaseSpec_eq_two hph
    have hd : dispatchMode st' t = beforeHeadStep st' t := by
      unfold dispatchMode; rw [hm', hm]
    have h0 : st.metadata.has_manufactured_body = false :=
      hf.trans (manufacturedRun_none hb)
    rw [hd, manufacturedRun_append_none hb t]
    clear hst' hpt hd
    cases t <;>
      simp only [beforeHeadStep, inHeadStep, afterHeadStep, inBodyStep,
        manufactureHeadSt, manufactureBodySt] <;>
      (try split_ifs) <;> (try simp [*, forcesBody, isHeadElement]) <;>
      (try simp_all [forcesBody, isHeadElement]) <;> (try tauto)
  case inHead =>
    rw [hm] at hph
    simp only [modePhase] at hph
    obtain ⟨hs, hr, hh, hb⟩ := phaseSpec_eq_three hph
    have hd : dispatchMode st' t = inHeadStep st' t := by
      unfold dispatchMode; rw [hm', hm]
    have h0 : st.metadata.has_manufactured_body = false :=
      hf.trans (manufacturedRun_none hb)
    rw [hd, manufacturedRun_append_none hb t]
    clear hst' hpt hd
    cases t <;>
      simp only [inHeadStep, afterHeadStep, inBodyStep, manufactureBodySt] <;>
      (try split_ifs) <;> (try simp [*, forcesBody, isHeadElement]) <;>
      (try simp_all [forcesBody, isHeadElement]) <;> (try tauto)
  case afterHead =>
    rw [hm] at hph
    simp only [modePhase] at hph
    obtain ⟨hs, hr, hh, hb⟩ := phaseSpec_eq_three hph
    have hd : dispatchMode st' t = afterHeadStep st' t := by
      unfold dispatchMode; rw [hm', hm]
    have h0 : st.metadata.has_manufactured_body = false :=
      hf.trans (manufacturedRun_none hb)
    rw [hd, manufacturedRun_append_none hb t]
    clear hst' hpt hd
    cases t <;>
      simp only [afterHeadStep, inBodyStep, manufactureBodySt] <;>
      (try split_ifs) <;> (try simp [*, forcesBody, isHeadElement]) <;>
      (try simp_all [forcesBody, isHeadElement]) <;> (try tauto)
  case inBody =>
    rw [hm] at hph
    simp only [modePhase] at hph
    obtain ⟨hs, hr, hh, hb⟩ := phaseSpec_eq_four hph
    have hd : dispatchMode st' t = inBodyStep st' t := by
      unfold dispatchMode; rw [hm', hm]
    rw [hd, manufacturedRun_append_isSome hb t, ← hf]
    clear hst' hpt hd
    cases t <;>
      simp only [inBodyStep] <;>
      (try split_ifs) <;> (try simp [*]) <;>
      (try simp_all) <;> (try tauto)
  case afterBody =>
    rw [hm] at hph
    simp only [modePhase] at hph
    obtain ⟨hs, hr, hh, hb⟩ := phaseSpec_eq_four hph
    have hd : dispatchMode st' t = afterBodyStep st' t := by
      unfold dispatchMode; rw [hm', hm]
    rw [hd, manufacturedRun_append_isSome hb t, ← hf]
    clear hst' hpt hd
    cases t <;>
      simp only [afterBodyStep, inBodyStep] <;>
      (try split_ifs) <;> (try simp [*]) <;>
      (try simp_all) <;> (try tauto)

theorem clean_step (st : ParserState) (t : Token)
    (h1 : CleanL st.preRoot) (h2 : CleanL st.headChildren)
    (h3 : CleanL st.bodyChildren) :
    CleanL (processToken st t).preRoot ∧
      CleanL (processToken st t).headChildren ∧
      CleanL (processToken st t).bodyChildren := by
  obtain ⟨st', hst', hp', hh', hb'⟩ :
      ∃ st', recordTokenMetadata st t = st' ∧ st'.preRoot = st.preRoot ∧
        st'.headChildren = st.headChildren ∧
        st'.bodyChildren = st.bodyChildren :=
    ⟨_, rfl, record_preRoot st t, record_headChildren st t,
      record_bodyChildren st t⟩
  have hpt : processToken st t = dispatchMode st' t := by
    simp only [processToken, hst']
  rw [hpt]
  have h1' : CleanL st'.preRoot := hp' ▸ h1
  have h2' : CleanL st'.headChildren := hh' ▸ h2
  have h3' : CleanL st'.bodyChildren := hb' ▸ h3
  clear hst' hpt hp' hh' hb' h1 h2 h3
  unfold dispatchMode
  cases hm : st'.mode <;>
    cases t <;>
      simp only [initialStep, beforeHtmlStep, beforeHeadStep, inHeadStep,
        afterHeadStep, inBodyStep, afterBodyStep, manufactureHtmlSt,
        manufactureHeadSt, manufactureBodySt] <;>
      (try split_ifs) <;>
      (refine ⟨?_, ?_, ?_⟩ <;>
        first
          | exact h1'
          | exact h2'
          | exact h3'
          | exact cleanL_cons (cleanNode_mkComment _) h1'
          | exact cleanL_cons (cleanNode_mkComment _) h2'
          | exact cleanL_cons (cleanNode_mkComment _) h3'
          | exact cleanL_cons (cleanNode_mkDoctype _) h1'
          | exact cleanL_cons (cleanNode_mkText _) h2'
          | exact cleanL_cons (cleanNode_mkText _) h3'
          | exact cleanL_cons (cleanNode_mkElement_headElem _ (by assumption)) h2'
          | exact cleanL_cons (cleanNode_mkElement_headElem _ (by assumption)) h3'
          | exact cleanL_cons
              (cleanNode_mkElement _ (by tauto) (by tauto) (by tauto)) h3'
          | tauto)

theorem inv_step (pre : List Token) (st : ParserState) (t : Token)
    (h : Inv pre st) : Inv (pre ++ [t]) (processToken st t) :=
  ⟨phase_step pre st t h.hphase,
   quirks_step pre st t h.hphase h.hquirks,
   mHtml_step pre st t h.hphase h.hmhtml,
   mHead_step pre st t h.hphase h.hmhead,
   mBody_step pre st t h.hphase h.hmbody,
   (clean_step st t h.hpre h.hheadc h.hbodyc).1,
   (clean_step st t h.hpre h.hheadc h.hbodyc).2.1,
   (clean_step st t h.hpre h.hheadc h.hbodyc).2.2⟩

theorem inv_run (toks : List Token) : ∀ (pre : List Token) (st : ParserState),
    Inv pre st → Inv (pre ++ toks) (toks.foldl processToken st) := by
  induction toks with
  | nil => intro pre st h; simpa using h
  | cons t ts ih =>
    intro pre st h
    have h2 := ih (pre ++ [t]) (processToken st t) (inv_step pre st t h)
    simpa [List.append_assoc] using h2

theorem inv_run_all (toks : List Token) : Inv toks (runTokens toks) := by
  have h := inv_run toks [] initState inv_init
  simpa [runTokens] using h

theorem acc_finalize (st : ParserState) : acc (finalizeState st) = acc st := by
  cases hm : st.mode <;> simp [finalizeState, hm, acc]

theorem finalize_preRoot (st : ParserState) :
    (finalizeState st).preRoot = st.preRoot := by
  cases hm : st.mode <;> simp [finalizeState, hm]

theorem finalize_headChildren (st : ParserState) :
    (finalizeState st).headChildren = st.headChildren := by
  cases hm : st.mode <;> simp [finalizeState, hm]

theorem finalize_bodyChildren (st : ParserState) :
    (finalizeState st).bodyChildren = st.bodyChildren := by
  cases hm : st.mode <;> simp [finalizeState, hm]

theorem finalize_htmlAttrs (st : ParserState) :
    (finalizeState st).htmlAttrs = st.htmlAttrs := by
  cases hm : st.mode <;> simp [finalizeState, hm]

theorem finalize_headAttrs (st : ParserState) :
    (finalizeState st).headAttrs = st.headAttrs := by
  cases hm : st.mode <;> simp [finalizeState, hm]

theorem finalize_bodyAttrs (st : ParserState) :
    (finalizeState st).bodyAttrs = st.bodyAttrs := by
  cases hm : st.mode <;> simp [finalizeState, hm]

theorem quirksFinal_eq_run {toks : List Token}
    (h : (toks.find? sigInitial).isSome = true) :
    quirksFinal toks = quirksRun toks := by
  obtain ⟨x, hx⟩ := Option.isSome_iff_exists.mp h
  cases x <;> simp [quirksFinal, quirksRun, hx]

theorem quirksFinal_of_none {toks : List Token}
    (h : toks.find? sigInitial = none) : quirksFinal toks = true := by
  simp [quirksFinal, h]

theorem manufacturedFinal_eq_run {f : Token → Bool} {name : String}
    {toks : List Token} (h : (toks.find? f).isSome = true) :
    manufacturedFinal f name toks = manufacturedRun f name toks := by
  obtain ⟨x, hx⟩ := Option.isSome_iff_exists.mp h
  cases x <;> simp [manufacturedFinal, manufacturedRun, hx]

theorem manufacturedFinal_of_none {f : Token → Bool} {name : String}
    {toks : List Token} (h : toks.find? f = none) :
    manufacturedFinal f name toks = true := by
  simp [manufacturedFinal, h]

theorem run_finalize_quirks (toks : List Token) :
    (finalizeState (runTokens toks)).metadata.quirks_mode =
      quirksFinal toks := by
  have hI := inv_run_all toks
  have hph := hI.hphase
  have hq := hI.hquirks
  cases hm : (runTokens toks).mode <;>
    rw [hm] at hph <;> simp only [modePhase] at hph <;>
      simp only [finalizeState, hm]
  case initialMode =>
    obtain ⟨hs, _, _, _⟩ := phaseSpec_eq_zero hph
    simp [quirksFinal_of_none hs]
  case beforeHtml =>
    obtain ⟨hs, _, _, _⟩ := phaseSpec_eq_one hph
    simp [quirksFinal_eq_run hs, ← hq]
  case beforeHead =>
    obtain ⟨hs, _, _, _⟩ := phaseSpec_eq_two hph
    simp [quirksFinal_eq_run hs, ← hq]
  case inHead =>
    obtain ⟨hs, _, _, _⟩ := phaseSpec_eq_three hph
    simp [quirksFinal_eq_run hs, ← hq]
  case afterHead =>
    obtain ⟨hs, _, _, _⟩ := phaseSpec_eq_three hph
    simp [quirksFinal_eq_run hs, ← hq]
  case inBody =>
    obtain ⟨hs, _, _, _⟩ := phaseSpec_eq_four hph
    simp [quirksFinal_eq_run hs, ← hq]
  case afterBody =>
    obtain ⟨hs, _, _, _⟩ := phaseSpec_eq_four hph
    simp [quirksFinal_eq_run hs, ← hq]

theorem run_finalize_mHtml (toks : List Token) :
    (finalizeState (runTokens toks)).metadata.has_manufactured_html =
      manufacturedFinal forcesRoot "html" toks := by
  have hI := inv_run_all toks
  have hph := hI.hphase
  have hf := hI.hmhtml
  cases hm : (runTokens toks).mode <;>
    rw [hm] at hph <;> simp only [modePhase] at hph <;>
      simp only [finalizeState, hm]
  case initialMode =>
    obtain ⟨_, hr, _, _⟩ := phaseSpec_eq_zero hph
    simp [manufacturedFinal_of_none hr]
  case beforeHtml =>
    obtain ⟨_, hr, _, _⟩ := phaseSpec_eq_one hph
    simp [manufacturedFinal_of_none hr]
  case beforeHead =>
    obtain ⟨_, hr, _, _⟩ := phaseSpec_eq_two hph
    simp [manufacturedFinal_eq_run hr, ← hf]
  case inHead =>
    obtain ⟨_, hr, _, _⟩ := phaseSpec_eq_three hph
    simp [manufacturedFinal_eq_run hr, ← hf]
  case afterHead =>
    obtain ⟨_, hr, _, _⟩ := phaseSpec_eq_three hph
    simp [manufacturedFinal_eq_run hr, ← hf]
  case inBody =>
    obtain ⟨_, hr, _, _⟩ := phaseSpec_eq_four hph
    simp [manufacturedFinal_eq_run hr, ← hf]
  case afterBody =>
    obtain ⟨_, hr, _, _⟩ := phaseSpec_eq_four hph
    simp [manufacturedFinal_eq_run hr, ← hf]

theorem run_finalize_mHead (toks : List Token) :
    (finalizeState (runTokens toks)).metadata.has_manufactured_head =
      manufacturedFinal forcesHead "head" toks := by
  have hI := inv_run_all toks
  have hph := hI.hphase
  have hf := hI.hmhead
  cases hm : (runTokens toks).mode <;>
    rw [hm] at hph <;> simp only [modePhase] at hph <;>
      simp only [finalizeState, hm]
  case initialMode =>
    obtain ⟨_, _, hh, _⟩ := phaseSpec_eq_zero hph
    simp [manufacturedFinal_of_none hh]
  case beforeHtml =>
    obtain ⟨_, _, hh, _⟩ := phaseSpec_eq_one hph
    simp [manufacturedFinal_of_none hh]
  case beforeHead =>
    obtain ⟨_, _, hh, _⟩ := phaseSpec_eq_two hph
    simp [manufacturedFinal_of_none hh]
  case inHead =>
    obtain ⟨_, _, hh, _⟩ := phaseSpec_eq_three hph
    simp [manufacturedFinal_eq_run hh, ← hf]
  case afterHead =>
    obtain ⟨_, _, hh, _⟩ := phaseSpec_eq_three hph
    simp [manufacturedFinal_eq_run hh, ← hf]
  case inBody =>
    obtain ⟨_, _, hh, _⟩ := phaseSpec_eq_four hph
    simp [manufacturedFinal_eq_run hh, ← hf]
  case afterBody =>
    obtain ⟨_, _, hh, _⟩ := phaseSpec_eq_four hph
    simp [manufacturedFinal_eq_run hh, ← hf]

theorem run_finalize_mBody (toks : List Token) :
    (finalizeState (runTokens toks)).metadata.has_manufactured_body =
      manufacturedFinal forcesBody "body" toks := by
  have hI := inv_run_all toks
  have hph := hI.hphase
  have hf := hI.hmbody
  cases hm : (runTokens toks).mode <;>
    rw [hm] at hph <;> simp only [modePhase] at hph <;>
      simp only [finalizeState, hm]
  case initialMode =>
    obtain ⟨_, _, _, hb⟩ := phaseSpec_eq_zero hph
    simp [manufacturedFinal_of_none hb]
  case beforeHtml =>
    obtain ⟨_, _, _, hb⟩ := phaseSpec_eq_one hph
    simp [manufacturedFinal_of_none hb]
  case beforeHead =>
    obtain ⟨_, _, _, hb⟩ := phaseSpec_eq_two hph
    simp [manufacturedFinal_of_none hb]
  case inHead =>
    obtain ⟨_, _, _, hb⟩ := phaseSpec_eq_three hph
    simp [manufacturedFinal_of_none hb]
  case afterHead =>
    obtain ⟨_, _, _, hb⟩ := phaseSpec_eq_three hph
    simp [manufacturedFinal_of_none hb]
  case inBody =>
    obtain ⟨_, _, _, hb⟩ := phaseSpec_eq_four hph
    simp [manufacturedFinal_eq_run hb, ← hf]
  case afterBody =>
    obtain ⟨_, _, _, hb⟩ := phaseSpec_eq_four hph
    simp [manufacturedFinal_eq_run hb, ← hf]

mutual
theorem Node.countTag_zero_find (name : String) :
    ∀ n : Node, Node.countTag name n = 0 → Node.findFirstTag name n = none
  | .mk t d a ch => fun h => by
    simp only [Node.countTag] at h
    simp only [Node.findFirstTag]
    split_ifs with hc
    · simp [hc] at h
    · exact NodeList.countTagList_zero_find name ch (by simpa [hc] using h)
theorem NodeList.countTagList_zero_find (name : String) :
    ∀ l : NodeList, NodeList.countTag name l = 0 →
      NodeList.findFirstTag name l = none
  | .nil => fun _ => rfl
  | .cons n rest => fun h => by
    simp only [NodeList.countTag] at h
    have h1 : Node.countTag name n = 0 := by omega
    have h2 : NodeList.countTag name rest = 0 := by omega
    simp only [NodeList.findFirstTag, Node.countTag_zero_find name n h1]
    exact NodeList.countTagList_zero_find name rest h2
end

theorem countTag_ofList (name : String) (l : List Node) :
    NodeList.countTag name (NodeList.ofList l) =
      (l.map (Node.countTag name)).sum := by
  induction l with
  | nil => rfl
  | cons n rest ih => simp [NodeList.ofList, NodeList.countTag, ih]

theorem findFirstTag_ofList_none (name : String) (l : List Node)
    (h : ∀ n ∈ l, Node.findFirstTag name n = none) :
    NodeList.findFirstTag name (NodeList.ofList l) = none := by
  induction l with
  | nil => rfl
  | cons n rest ih =>
    simp only [NodeList.ofList, NodeList.findFirstTag]
    rw [h n (by simp)]
    exact ih fun m hm => h m (by simp [hm])

theorem findFirstTag_ofList_append (name : String) (l1 l2 : List Node)
    (h : ∀ n ∈ l1, Node.findFirstTag name n = none) :
    NodeList.findFirstTag name (NodeList.ofList (l1 ++ l2)) =
      NodeList.findFirstTag name (NodeList.ofList l2) := by
  induction l1 with
  | nil => rfl
  | cons n rest ih =>
    simp only [List.cons_append, NodeList.ofList, NodeList.findFirstTag]
    rw [h n (by simp)]
    exact ih fun m hm => h m (by simp [hm])

theorem sum_countTag_zero (l : List Node) (name : String)
    (h : ∀ n ∈ l, Node.countTag name n = 0) :
    (l.map (Node.countTag name)).sum = 0 := by
  apply List.sum_eq_zero
  intro x hx
  obtain ⟨n, hn, rfl⟩ := List.mem_map.mp hx
  exact h n hn

theorem buildRoot_count (st : ParserState) (hpre : CleanL st.preRoot)
    (hhead : CleanL st.headChildren) (hbody : CleanL st.bodyChildren) :
    Node.countTag "html" (buildRoot st) = 1 ∧
      Node.countTag "head" (buildRoot st) = 1 ∧
      Node.countTag "body" (buildRoot st) = 1 := by
  have e1 : (st.preRoot.map (Node.countTag "html")).sum = 0 :=
    sum_countTag_zero _ _ fun n hn => (hpre n hn).1
  have e2 : (st.preRoot.map (Node.countTag "head")).sum = 0 :=
    sum_countTag_zero _ _ fun n hn => (hpre n hn).2.1
  have e3 : (st.preRoot.map (Node.countTag "body")).sum = 0 :=
    sum_countTag_zero _ _ fun n hn => (hpre n hn).2.2
  have e4 : (st.headChildren.map (Node.countTag "html")).sum = 0 :=
    sum_countTag_zero _ _ fun n hn => (hhead n hn).1
  have e5 : (st.headChildren.map (Node.countTag "head")).sum = 0 :=
    sum_countTag_zero _ _ fun n hn => (hhead n hn).2.1
  have e6 : (st.headChildren.map (Node.countTag "body")).sum = 0 :=
    sum_countTag_zero _ _ fun n hn => (hhead n hn).2.2
  have e7 : (st.bodyChildren.map (Node.countTag "html")).sum = 0 :=
    sum_countTag_zero _ _ fun n hn => (hbody n hn).1
  have e8 : (st.bodyChildren.map (Node.countTag "head")).sum = 0 :=
    sum_countTag_zero _ _ fun n hn => (hbody n hn).2.1
  have e9 : (st.bodyChildren.map (Node.countTag "body")).sum = 0 :=
    sum_countTag_zero _ _ fun n hn => (hbody n hn).2.2
  refine ⟨?_, ?_, ?_⟩ <;>
    simp [buildRoot, Node.countTag, NodeList.countTag, countTag_ofList,
      List.map_append, List.sum_append, List.map_reverse, List.sum_reverse,
      e1, e2, e3, e4, e5, e6, e7, e8, e9]

theorem buildRoot_htmlAttrs (st : ParserState) (hpre : CleanL st.preRoot) :
    (Node.findFirstTag "html" (buildRoot st)).map Node.nodeAttributes =
      some st.htmlAttrs := by
  have hnone : ∀ n ∈ st.preRoot.reverse, Node.findFirstTag "html" n = none :=
    fun n hn =>
      Node.countTag_zero_find "html" n (hpre n (List.mem_reverse.mp hn)).1
  simp only [buildRoot, Node.findFirstTag]
  rw [if_neg (by simp), findFirstTag_ofList_append "html" _ _ hnone]
  simp [NodeList.ofList, NodeList.findFirstTag, Node.findFirstTag,
    Node.nodeAttributes]

theorem buildRoot_bodyAttrs (st : ParserState) (hpre : CleanL st.preRoot)
    (hhead : CleanL st.headChildren) :
    (Node.findFirstTag "body" (buildRoot st)).map Node.nodeAttributes =
      some st.bodyAttrs := by
  have hnone : ∀ n ∈ st.preRoot.reverse, Node.findFirstTag "body" n = none :=
    fun n hn =>
      Node.countTag_zero_find "body" n (hpre n (List.mem_reverse.mp hn)).2.2
  have hnone2 : NodeList.findFirstTag "body"
      (NodeList.ofList st.headChildren.reverse) = none :=
    findFirstTag_ofList_none _ _ fun n hn =>
      Node.countTag_zero_find "body" n
        (hhead n (List.mem_reverse.mp hn)).2.2
  simp only [buildRoot, Node.findFirstTag]
  rw [if_neg (by simp), findFirstTag_ofList_append "body" _ _ hnone]
  simp [NodeList.ofList, NodeList.findFirstTag, Node.findFirstTag, hnone2,
    Node.nodeAttributes]

theorem acc_run (toks : List Token) :
    acc (runTokens toks) = toks.foldl accUpdate (acc initState) :=
  acc_foldl toks initState

theorem Parse_dupHtml (toks : List Token) (n : Nat) :
    (Parse toks n).metadata.duplicate_html_elements =
      decide (2 ≤ (htmlStartTags toks).length) := by
  have h1 : (Parse toks n).metadata.duplicate_html_elements =
      (acc (finalizeState (runTokens toks))).dupHtml := rfl
  rw [h1, acc_finalize, acc_run, foldAcc_dupHtml]
  simp [acc, initState, htmlStartTags]

theorem Parse_dupBody (toks : List Token) (n : Nat) :
    (Parse toks n).metadata.duplicate_body_elements =
      decide (2 ≤ (bodyStartTags toks).length) := by
  have h1 : (Parse toks n).metadata.duplicate_body_elements =
      (acc (finalizeState (runTokens toks))).dupBody := rfl
  rw [h1, acc_finalize, acc_run, foldAcc_dupBody]
  simp [acc, initState, bodyStartTags]

theorem Parse_locHtml (toks : List Token) (n : Nat) :
    (Parse toks n).metadata.duplicate_html_element_location =
      ((htmlStartTags toks).get? 1).map tokenPosition := by
  have h1 : (Parse toks n).metadata.duplicate_html_element_location =
      (acc (finalizeState (runTokens toks))).locHtml := rfl
  rw [h1, acc_finalize, acc_run, foldAcc_locHtml]
  simp [acc, initState, htmlStartTags]

theorem Parse_locBody (toks : List Token) (n : Nat) :
    (Parse toks n).metadata.duplicate_body_element_location =
      ((bodyStartTags toks).get? 1).map tokenPosition := by
  have h1 : (Parse toks n).metadata.duplicate_body_element_location =
      (acc (finalizeState (runTokens toks))).locBody := rfl
  rw [h1, acc_finalize, acc_run, foldAcc_locBody]
  simp [acc, initState, bodyStartTags]

theorem Parse_canonical (toks : List Token) (n : Nat) :
    (Parse toks n).metadata.canonical_url =
      (lastCanonicalHref toks).getD "" := by
  have h1 : (Parse toks n).metadata.canonical_url =
      (acc (finalizeState (runTokens toks))).canonicalUrl := rfl
  rw [h1, acc_finalize, acc_run, foldAcc_canonical]
  simp [acc, initState]

theorem Parse_base (toks : List Token) (n : Nat) :
    (Parse toks n).metadata.base_url =
      (match firstBase toks with
       | some tb => ((baseHrefOf tb).getD "", baseTargetOf tb)
       | none => ("", "")) := by
  have h1 : (Parse toks n).metadata.base_url =
      (acc (finalizeState (runTokens toks))).baseUrl := rfl
  rw [h1, acc_finalize, acc_run, (foldAcc_base toks (acc initState)).2]
  have h0 : (acc initState).sBase = false := rfl
  rw [h0]
  simp only [Bool.false_eq_true, if_false]
  cases firstBase toks <;> simp [acc, initState]

theorem run_htmlAttrs (toks : List Token) :
    (runTokens toks).htmlAttrs = mergedTagAttrs (htmlStartTags toks) := by
  have h1 : (runTokens toks).htmlAttrs = (acc (runTokens toks)).aHtml := rfl
  rw [h1, acc_run, foldAcc_aHtml]
  simp [acc, initState, htmlStartTags, mergedTagAttrs]

theorem run_bodyAttrs (toks : List Token) :
    (runTokens toks).bodyAttrs = mergedTagAttrs (bodyStartTags toks) := by
  have h1 : (runTokens toks).bodyAttrs = (acc (runTokens toks)).aBody := rfl
  rw [h1, acc_run, foldAcc_aBody]
  simp [acc, initState, bodyStartTags, mergedTagAttrs]

theorem Parse_quirks (toks : List Token) (n : Nat) :
    (Parse toks n).metadata.quirks_mode = quirksFinal toks := by
  have h1 : (Parse toks n).metadata.quirks_mode =
      (finalizeState (runTokens toks)).metadata.quirks_mode := rfl
  rw [h1, run_finalize_quirks]

theorem Parse_mHtml (toks : List Token) (n : Nat) :
    (Parse toks n).metadata.has_manufactured_html =
      manufacturedFinal forcesRoot "html" toks := by
  have h1 : (Parse toks n).metadata.has_manufactured_html =
      (finalizeState (runTokens toks)).metadata.has_manufactured_html := rfl
  rw [h1, run_finalize_mHtml]

theorem Parse_mHead (toks : List Token) (n : Nat) :
    (Parse toks n).metadata.has_manufactured_head =
      manufacturedFinal forcesHead "head" toks := by
  have h1 : (Parse toks n).metadata.has_manufactured_head =
      (finalizeState (runTokens toks)).metadata.has_manufactured_head := rfl
  rw [h1, run_finalize_mHead]

theorem Parse_mBody (toks : List Token) (n : Nat) :
    (Parse toks n).metadata.has_manufactured_body =
      manufacturedFinal forcesBody "body" toks := by
  have h1 : (Parse toks n).metadata.has_manufactured_body =
      (finalizeState (runTokens toks)).metadata.has_manufactured_body := rfl
  rw [h1, run_finalize_mBody]

theorem Parse_root_eq (toks : List Token) (n : Nat) :
    (Parse toks n).RootNode =
      some (buildRoot (finalizeState (runTokens toks))) := rfl

theorem finalize_clean (toks : List Token) :
    CleanL (finalizeState (runTokens toks)).preRoot ∧
      CleanL (finalizeState (runTokens toks)).headChildren ∧
      CleanL (finalizeState (runTokens toks)).bodyChildren := by
  have hI := inv_run_all toks
  rw [finalize_preRoot, finalize_headChildren, finalize_bodyChildren]
  exact ⟨hI.hpre, hI.hheadc, hI.hbodyc⟩

theorem isSome_map {alpha beta : Type} (f : alpha → beta) (o : Option alpha) :
    (o.map f).isSome = o.isSome := by cases o <;> rfl

theorem get1_isSome_iff {alpha : Type} (l : List alpha) :
    (l.get? 1).isSome = decide (2 ≤ l.length) := by
  rcases l with _ | ⟨a, _ | ⟨b, rest⟩⟩ <;> simp

/-- C1: for every token stream, Parse (a total function of the model, hence
terminating) returns a Document whose RootNode is a non-null node; malformed
markup never makes it fail or return a rootless document. -/
theorem c1_parse_root_nonnull (toks : List Token) (n : Nat) :
    ((Parse toks n).RootNode).isSome = true := by
  rw [Parse_root_eq]; rfl

/-- C2 (counterexample): on the stream div-then-html the parser sets
has_manufactured_html even though an html start tag does appear in the
source — it merely appears after the builder was already forced to
synthesize the root — so the flag is not equivalent to the start tag never
appearing in the source, refuting the claim as stated. -/
theorem c2_counterexample :
    (Parse exDivHtml 0).metadata.has_manufactured_html = true ∧
      exDivHtml.any isHtmlStartTag = true := by
  exact ⟨rfl, rfl⟩

/-- C2 (amended): each has_manufactured flag is true exactly when no
corresponding start tag was tokenized before tree construction was forced
to create that element (by a forcing token or by end of input); a start tag
appearing later does not clear the flag, and end tags (auto-closing) never
create a node, only force manufacture of elements whose start tag is
missing. -/
theorem c2_manufactured_flags (toks : List Token) (n : Nat) :
    (Parse toks n).metadata.has_manufactured_html =
        manufacturedFinal forcesRoot "html" toks ∧
      (Parse toks n).metadata.has_manufactured_head =
        manufacturedFinal forcesHead "head" toks ∧
      (Parse toks n).metadata.has_manufactured_body =
        manufacturedFinal forcesBody "body" toks :=
  ⟨Parse_mHtml toks n, Parse_mHead toks n, Parse_mBody toks n⟩

/-- C3: duplicate_html_elements is true exactly when the source holds two
or more html start tags, the recorded location is the second occurrence
(none below two), the tree keeps a single html node whose attributes are
the fold of all html start tag attribute lists with first occurrence
winning per name; analogously for body. -/
theorem c3_duplicate_merging (toks : List Token) (n : Nat) :
    ((Parse toks n).metadata.duplicate_html_elements =
        decide (2 ≤ (htmlStartTags toks).length)) ∧
      ((Parse toks n).metadata.duplicate_html_element_location =
        ((htmlStartTags toks).get? 1).map tokenPosition) ∧
      ((Parse toks n).metadata.duplicate_body_elements =
        decide (2 ≤ (bodyStartTags toks).length)) ∧
      ((Parse toks n).metadata.duplicate_body_element_location =
        ((bodyStartTags toks).get? 1).map tokenPosition) ∧
      (∀ r, (Parse toks n).RootNode = some r →
        Node.countTag "html" r = 1 ∧ Node.countTag "body" r = 1 ∧
          (Node.findFirstTag "html" r).map Node.nodeAttributes =
            some (mergedTagAttrs (htmlStartTags toks)) ∧
          (Node.findFirstTag "body" r).map Node.nodeAttributes =
            some (mergedTagAttrs (bodyStartTags toks))) := by
  refine ⟨Parse_dupHtml toks n, Parse_locHtml toks n, Parse_dupBody toks n,
    Parse_locBody toks n, ?_⟩
  intro r hr
  rw [Parse_root_eq] at hr
  injection hr with h
  subst h
  obtain ⟨hcl1, hcl2, hcl3⟩ := finalize_clean toks
  refine ⟨(buildRoot_count _ hcl1 hcl2 hcl3).1,
    (buildRoot_count _ hcl1 hcl2 hcl3).2.2, ?_, ?_⟩
  · rw [buildRoot_htmlAttrs _ hcl1, finalize_htmlAttrs, run_htmlAttrs]
  · rw [buildRoot_bodyAttrs _ hcl1 hcl2, finalize_bodyAttrs, run_bodyAttrs]

/-- C3 (witness): on a stream with two html start tags the tree still holds
exactly one html element. -/
theorem c3_witness :
    Node.countTag "html" (buildRoot (finalizeState (runTokens exTwoHtml))) =
      1 :=
  ((c3_duplicate_merging exTwoHtml 0).2.2.2.2 _ rfl).1

/-- C4: for every token stream, the final tree contains exactly one html,
one head and one body element, regardless of how many such start tags the
source held. -/
theorem c4_singleton_html_head_body (toks : List Token) (n : Nat) :
    ∀ r, (Parse toks n).RootNode = some r →
      Node.countTag "html" r = 1 ∧ Node.countTag "head" r = 1 ∧
        Node.countTag "body" r = 1 := by
  intro r hr
  rw [Parse_root_eq] at hr
  injection hr with h
  subst h
  obtain ⟨hcl1, hcl2, hcl3⟩ := finalize_clean toks
  exact buildRoot_count _ hcl1 hcl2 hcl3

/-- C4 (witness): the empty stream already yields the singleton
html/head/body skeleton. -/
theorem c4_witness :
    Node.countTag "html" (buildRoot (finalizeState (runTokens []))) = 1 ∧
      Node.countTag "head" (buildRoot (finalizeState (runTokens []))) = 1 ∧
      Node.countTag "body" (buildRoot (finalizeState (runTokens []))) = 1 :=
  c4_singleton_html_head_body [] 0 _ rfl

/-- C5: quirks_mode is true whenever no doctype token precedes the first
significant (non-whitespace, non-comment) content; it is false when the
input begins with a doctype named html without identifiers; and it is true
whenever the deciding doctype has a name other than html
(case-insensitively) or an identifier in the fixed legacy-quirks table. -/
theorem c5_quirks_mode :
    (∀ (toks : List Token) (n : Nat),
      (∀ t, toks.find? sigInitial = some t → isDoctypeTok t = false) →
        (Parse toks n).metadata.quirks_mode = true) ∧
      (∀ (p : LineCol) (rest : List Token) (n : Nat),
        (Parse (Token.doctypeToken "html" none none p :: rest) n).metadata.quirks_mode = false) ∧
      (∀ (toks : List Token) (n : Nat) (nm : String)
        (pub sys : Option String) (p : LineCol),
        toks.find? sigInitial = some (Token.doctypeToken nm pub sys p) →
          quirksFromDoctype nm pub sys = true →
            (Parse toks n).metadata.quirks_mode = true) := by
  refine ⟨?_, ?_, ?_⟩
  · intro toks n h
    rw [Parse_quirks]
    unfold quirksFinal
    cases hf : toks.find? sigInitial with
    | none => rfl
    | some x =>
      have hx := h x hf
      cases x <;> simp_all [isDoctypeTok]
  · intro p rest n
    rw [Parse_quirks]
    have hf : (Token.doctypeToken "html" none none p :: rest).find?
        sigInitial = some (Token.doctypeToken "html" none none p) := by
      simp [List.find?_cons, sigInitial]
    unfold quirksFinal
    rw [hf]
    show quirksFromDoctype "html" none none = false
    decide
  · intro toks n nm pub sys p hf hbad
    rw [Parse_quirks]
    unfold quirksFinal
    rw [hf]
    exact hbad

/-- C5 (witness): a doctype with a non-html name selects quirks mode, and a
leading html doctype does not. -/
theorem c5_witness :
    (Parse [Token.doctypeToken "xml" none none ⟨1, 1⟩] 0).metadata.quirks_mode = true ∧
      (Parse [Token.doctypeToken "html" none none ⟨1, 1⟩] 0).metadata.quirks_mode = false :=
  ⟨c5_quirks_mode.2.2 [Token.doctypeToken "xml" none none ⟨1, 1⟩] 0 "xml"
      none none ⟨1, 1⟩ rfl (by decide),
    c5_quirks_mode.2.1 ⟨1, 1⟩ [] 0⟩

/-- C6: when the source contains at least one base element with an href,
base_url holds the href and (optional, defaulted) target of the first such
element; later base elements never overwrite it. -/
theorem c6_base_url (toks : List Token) (n : Nat) (tb : Token)
    (h : firstBase toks = some tb) :
    (Parse toks n).metadata.base_url =
      ((baseHrefOf tb).getD "", baseTargetOf tb) := by
  rw [Parse_base, h]

/-- C6 (witness): the first base with href wins over a later one. -/
theorem c6_witness : (Parse exBase 0).metadata.base_url = ("u1", "t1") :=
  c6_base_url exBase 0
    (Token.startTag "base" [⟨"href", "u1"⟩, ⟨"target", "t1"⟩] false ⟨1, 1⟩)
    rfl

/-- C7: canonical_url equals the href of the last link rel=canonical
element in document order, each occurrence overwriting the previous
value. -/
theorem c7_canonical_url (toks : List Token) (n : Nat) (h : String)
    (hl : lastCanonicalHref toks = some h) :
    (Parse toks n).metadata.canonical_url = h := by
  rw [Parse_canonical, hl]
  rfl

/-- C7 (witness): with two canonical links the last href wins. -/
theorem c7_witness : (Parse exCanonical 0).metadata.canonical_url = "u2" :=
  c7_canonical_url exCanonical 0 "u2" rfl

/-- C8: cloning a node via the document produces a node with a fresh
identity (a new index, distinct from the source), owned by the same
document (a valid index of the same store, all previous nodes intact),
copying type, data and attribute mapping, with no parent, no siblings and
no children. -/
theorem c8_clone_node (d : NodeStore) (i : Nat) (nd : NodeRec)
    (h : d.nodes.get? i = some nd) :
    (d.CloneNode i).2 = d.nodes.length ∧
      (d.CloneNode i).2 ≠ i ∧
      (d.CloneNode i).1.nodes.get? (d.CloneNode i).2 =
        some { node_type := nd.node_type, data := nd.data,
               attributes := nd.attributes } ∧
      (∀ j, j < d.nodes.length →
        (d.CloneNode i).1.nodes.get? j = d.nodes.get? j) ∧
      (d.CloneNode i).2 < (d.CloneNode i).1.nodes.length := by
  have hi : i < d.nodes.length := by
    by_contra hcon
    push_neg at hcon
    rw [List.get?_eq_none.mpr hcon] at h
    exact absurd h (by simp)
  have hc : d.CloneNode i =
      ({ nodes := d.nodes ++
          [{ node_type := nd.node_type, data := nd.data,
             attributes := nd.attributes }] }, d.nodes.length) := by
    simp only [NodeStore.CloneNode, h]
  rw [hc]
  refine ⟨rfl, by omega, ?_, ?_, ?_⟩
  · exact List.get?_concat_length _ _
  · intro j hj
    exact List.get?_append hj
  · simp

/-- C8 (witness): cloning the only node of a one-node store yields index 1
with copied type, data and attributes and empty relations. -/
theorem c8_witness :
    (exStore.CloneNode 0).1.nodes.get? (exStore.CloneNode 0).2 =
      some { node_type := NodeType.elementNode, data := "b",
             attributes := [⟨"x", "y"⟩] } :=
  (c8_clone_node exStore 0
    { node_type := NodeType.elementNode, data := "b",
      attributes := [⟨"x", "y"⟩], parent := some 0, first_child := some 0,
      last_child := some 0, prev_sibling := some 0,
      next_sibling := some 0 } rfl).2.2.1

/-- C9: in every parsed DocumentMetadata, the duplicate html location is
some exactly when duplicate_html_elements is true, and likewise for body;
when the flag is false the location stays none. -/
theorem c9_duplicate_location_iff (toks : List Token) (n : Nat) :
    ((Parse toks n).metadata.duplicate_html_elements = true ↔
        ((Parse toks n).metadata.duplicate_html_element_location).isSome =
          true) ∧
      ((Parse toks n).metadata.duplicate_body_elements = true ↔
        ((Parse toks n).metadata.duplicate_body_element_location).isSome =
          true) := by
  rw [Parse_dupHtml, Parse_locHtml, Parse_dupBody, Parse_locBody,
    isSome_map, isSome_map, get1_isSome_iff, get1_isSome_iff]
  exact ⟨Iff.rfl, Iff.rfl⟩

/-- C10: a freshly constructed Document has every metadata field at its
default from the member initializers of document.h, an empty fragment node
list and no root; in the model nothing but a parse operation produces any
other Document value. -/
theorem c10_new_document_defaults :
    Document.new.RootNode = none ∧
      Document.new.FragmentNodes = [] ∧
      Document.new.Metadata.has_manufactured_html = false ∧
      Document.new.Metadata.has_manufactured_head = false ∧
      Document.new.Metadata.has_manufactured_body = false ∧
      Document.new.Metadata.duplicate_html_elements = false ∧
      Document.new.Metadata.duplicate_body_elements = false ∧
      Document.new.Metadata.duplicate_html_element_location = none ∧
      Document.new.Metadata.duplicate_body_element_location = none ∧
      Document.new.Metadata.quirks_mode = false ∧
      Document.new.Metadata.document_end_location = ⟨0, 0⟩ ∧
      Document.new.Metadata.html_src_bytes = 0 ∧
      Document.new.Metadata.base_url = ("", "") ∧
      Document.new.Metadata.canonical_url = "" := by
  refine ⟨?_, ?_, ?_, ?_, ?_, ?_, ?_, ?_, ?_, ?_, ?_, ?_, ?_, ?_⟩ <;> rfl

end HtmlDoc
